import Mathlib

/-!
# Verification of the swarm-core particle substrate

Shallow embedding of `src/swarm-core/src/lib.rs` (the Pluribus Swarm core).
Float (`f32`) arithmetic is idealised as exact arithmetic: the combinatorial
assignment engine and render export are embedded over `ℚ` (computable,
decidable comparisons), the physics integrator over `ℝ` (it uses square
roots and trigonometric functions).
-/

set_option maxHeartbeats 1000000

set_option linter.unnecessarySeqFocus false

/-- Particle types with different behavioral characteristics
(`enum ParticleType`). -/
inductive ParticleType : Type
  | Scout
  | Anchor
  | Drifter
deriving DecidableEq

/-- A single particle in the swarm (`struct Particle`), parametric in the
scalar type standing in for `f32`. -/
structure Particle (α : Type) : Type where
  x : α
  y : α
  vx : α
  vy : α
  target_x : α
  target_y : α
  is_forming : Bool
  size : α
  friction : α
  ease : α
  max_speed : α
  attraction_strength : α
  particle_type : ParticleType
deriving DecidableEq

/-- The swarm substrate (`struct SwarmSubstrate`): all particles plus the
inputs and buffers the physics reads and writes. -/
structure SwarmSubstrate (α : Type) : Type where
  particles : List (Particle α)
  text_coords : List (α × α)
  render_buffer : List α
  width : α
  height : α
  mouse_x : α
  mouse_y : α
  mouse_active : Bool
  time : α
deriving DecidableEq

/-- Default particle used as the `getD` fallback when indexing particle
lists (never observed in-range; its `is_forming` is `false` like a freshly
constructed particle's). -/
def pdefault : Particle ℚ :=
  { x := 0, y := 0, vx := 0, vy := 0, target_x := 0, target_y := 0,
    is_forming := false, size := 0, friction := 0, ease := 0,
    max_speed := 0, attraction_strength := 0,
    particle_type := ParticleType.Scout }

/-- Truncation toward zero: the semantics of Rust's `as i32` cast applied
to `x / grid_size` (floor for nonnegative values, ceiling for negative
ones). -/
def truncQ (q : ℚ) : ℤ :=
  if 0 ≤ q then ⌊q⌋ else ⌈q⌉

/-- Grid cell key of a point, from `((x / grid_size) as i32, (y / grid_size) as i32)`
with `grid_size = 50.0`. -/
def cellKey (x y : ℚ) : ℤ × ℤ :=
  (truncQ (x / 50), truncQ (y / 50))

/-- The grid-cell key the spec's words prescribe:
`(floor(x/cellSize), floor(y/cellSize))` with `cellSize = 50`.  Stated only
to compare against `cellKey`, the key the code computes. -/
def cellKeySpec (x y : ℚ) : ℤ × ℤ :=
  (⌊x / 50⌋, ⌊y / 50⌋)

/-- Indices of the target coordinates falling in the grid cell `key`, in
ascending order — the contents of `grid.get(&key)`: the `HashMap` entry is
built by pushing indices in `enumerate` order. -/
def gridLookup (coords : List (ℚ × ℚ)) (key : ℤ × ℤ) : List ℕ :=
  (coords.enum.filter (fun e => cellKey e.2.1 e.2.2 = key)).map (fun e => e.1)

/-- The 25 cell offsets searched in pass 1: `dx in -2..=2` outer,
`dy in -2..=2` inner. -/
def searchOffsets : List (ℤ × ℤ) :=
  ((List.range 5).map (fun a => (a : ℤ) - 2)).flatMap
    (fun dx => ((List.range 5).map (fun b => (b : ℤ) - 2)).map (fun dy => (dx, dy)))

/-- The running-minimum scan of pass 1: fold the candidate target indices,
keeping the first index realising the strict minimum of squared euclidean
distance to the particle (`best_dist` starts at infinity, so the first
candidate always wins against `none`). -/
def scanBest (coords : List (ℚ × ℚ)) (px py : ℚ) (cands : List ℕ) : Option (ℕ × ℚ) :=
  cands.foldl
    (fun acc t =>
      let c := coords.getD t (0, 0)
      let dist := (px - c.1) * (px - c.1) + (py - c.2) * (py - c.2)
      match acc with
      | none => some (t, dist)
      | some (bt, bd) => if dist < bd then some (t, dist) else some (bt, bd))
    none

/-- Write a target onto a particle and mark it forming (the three stores
performed when a target index is assigned). -/
def writeTarget (c : ℚ × ℚ) (p : Particle ℚ) : Particle ℚ :=
  { p with target_x := c.1, target_y := c.2, is_forming := true }

/-- Clear a particle's forming flag (`p.is_forming = false`). -/
def markNotForming (p : Particle ℚ) : Particle ℚ :=
  { p with is_forming := false }

/-- State threaded through the two assignment passes: the particle list
being mutated, the `used_coords` set, the pass-2 scan cursor `unused_idx`,
and `asg`, a ghost record of the target index each particle was assigned
during this call (`asg` mirrors the insertions into `used_coords` and
influences nothing). -/
structure AState : Type where
  qs : List (Particle ℚ)
  used : Finset ℕ
  unusedIdx : ℕ
  asg : List (Option ℕ)
deriving DecidableEq

/-- The pass-1 decision for a particle at `(px, py)` given the current
used set: compute the particle's own cell (`gx`, `gy`), gather the target
indices of the 5×5 surrounding cells that are not yet used, and scan for
the nearest one.  A pure function of the used set and the particle's
position. -/
def pass1Choice (coords : List (ℚ × ℚ)) (used : Finset ℕ) (px py : ℚ) :
    Option (ℕ × ℚ) :=
  let gx := truncQ (px / 50)
  let gy := truncQ (py / 50)
  let cands :=
    (searchOffsets.flatMap (fun d => gridLookup coords (gx + d.1, gy + d.2))).filter
      (fun t => t ∉ used)
  scanBest coords px py cands

/-- One iteration of the first assignment pass (body of the
`for i in 0..self.particles.len()` loop): particles beyond
`num_to_assign` are marked not-forming; otherwise the 5×5 block of grid
cells around the particle's own cell is scanned for the nearest unused
target index. -/
def pass1Step (coords : List (ℚ × ℚ)) (numToAssign : ℕ) (st : AState) (i : ℕ) : AState :=
  if numToAssign ≤ i then
    { st with qs := st.qs.set i (markNotForming (st.qs.getD i pdefault)) }
  else
    let p := st.qs.getD i pdefault
    match pass1Choice coords st.used p.x p.y with
    | none => st
    | some (t, _) =>
        { st with
          qs := st.qs.set i (writeTarget (coords.getD t (0, 0)) p),
          used := insert t st.used,
          asg := st.asg.set i (some t) }

/-- First assignment pass over all particles. -/
def pass1 (coords : List (ℚ × ℚ)) (ps : List (Particle ℚ)) : AState :=
  (List.range ps.length).foldl
    (pass1Step coords (min ps.length coords.length))
    { qs := ps, used := ∅, unusedIdx := 0, asg := List.replicate ps.length none }

/-- Fuelled forward scan of pass 2's `while` loop
(`while unused_idx < num_coords && used_coords.contains(&unused_idx)`);
`m - u` fuel suffices because each iteration requires `u < m`. -/
def skipUsedAux (used : Finset ℕ) (m : ℕ) : ℕ → ℕ → ℕ
  | 0, u => u
  | fuel + 1, u => if u < m ∧ u ∈ used then skipUsedAux used m fuel (u + 1) else u

/-- Advance the pass-2 cursor past used target indices. -/
def skipUsed (used : Finset ℕ) (m u : ℕ) : ℕ :=
  skipUsedAux used m (m - u) u

/-- One iteration of the second assignment pass: a particle still not
forming (and within the eligible range) takes the next unused target index
if one remains, else is marked not-forming. -/
def pass2Step (coords : List (ℚ × ℚ)) (numToAssign : ℕ) (st : AState) (i : ℕ) : AState :=
  if (st.qs.getD i pdefault).is_forming = true ∨ numToAssign ≤ i then st
  else if skipUsed st.used coords.length st.unusedIdx < coords.length then
    { qs := st.qs.set i
        (writeTarget (coords.getD (skipUsed st.used coords.length st.unusedIdx) (0, 0))
          (st.qs.getD i pdefault)),
      used := insert (skipUsed st.used coords.length st.unusedIdx) st.used,
      unusedIdx := skipUsed st.used coords.length st.unusedIdx + 1,
      asg := st.asg.set i (some (skipUsed st.used coords.length st.unusedIdx)) }
  else
    { st with
      qs := st.qs.set i (markNotForming (st.qs.getD i pdefault)),
      unusedIdx := skipUsed st.used coords.length st.unusedIdx }

/-- Second assignment pass over all particles (`unused_idx` starts at 0). -/
def pass2 (coords : List (ℚ × ℚ)) (n : ℕ) (st : AState) : AState :=
  (List.range n).foldl (pass2Step coords (min n coords.length)) { st with unusedIdx := 0 }

/-- The body of `assign_particles_to_text`, with the ghost per-particle assignment
record as second component: empty target set clears every forming flag;
otherwise the grid is built and the two passes run. -/
def assignP (coords : List (ℚ × ℚ)) (ps : List (Particle ℚ)) :
    List (Particle ℚ) × List (Option ℕ) :=
  if coords.length = 0 then
    (ps.map markNotForming, List.replicate ps.length none)
  else
    let st := pass2 coords ps.length (pass1 coords ps)
    (st.qs, st.asg)

/-- The function `assign_particles_to_text` proper: the mutated particle list. -/
def assign_particles_to_text (coords : List (ℚ × ℚ)) (ps : List (Particle ℚ)) :
    List (Particle ℚ) :=
  (assignP coords ps).1

/-- Rust's `chunks(2)` keeping only complete pairs: how `set_text_coords` decodes
the flattened `[x1, y1, x2, y2, ...]` input. -/
def chunksToPairs : List ℚ → List (ℚ × ℚ)
  | x :: y :: rest => (x, y) :: chunksToPairs rest
  | _ => []

/-- The operation `set_text_coords`: replace the target set with the decoded pairs and
re-run the assignment. -/
def set_text_coords (s : SwarmSubstrate ℚ) (coords : List ℚ) : SwarmSubstrate ℚ :=
  let tc := chunksToPairs coords
  { s with text_coords := tc, particles := assign_particles_to_text tc s.particles }

/-- One iteration of `update_render_buffer`'s loop: write particle `i`'s
`(x, y, size, forming flag)` at offset `i * 4`, guarded by the buffer
length check (`if idx + 3 < self.render_buffer.len()`). -/
def renderStep (ps : List (Particle ℚ)) (buf : List ℚ) (i : ℕ) : List ℚ :=
  if i * 4 + 3 < buf.length then
    ((((buf.set (i * 4) (ps.getD i pdefault).x).set
        (i * 4 + 1) (ps.getD i pdefault).y).set
        (i * 4 + 2) (ps.getD i pdefault).size).set
        (i * 4 + 3) (if (ps.getD i pdefault).is_forming = true then (1 : ℚ) else 0))
  else buf

/-- The operation `update_render_buffer`: write `(x, y, size, forming flag)` at offset
`i * 4` for every particle `i`. -/
def update_render_buffer (s : SwarmSubstrate ℚ) : SwarmSubstrate ℚ :=
  { s with
    render_buffer :=
      (List.range s.particles.length).foldl (renderStep s.particles)
        s.render_buffer }

/-- The accessor `particle_count`. -/
def particle_count (s : SwarmSubstrate ℚ) : ℕ :=
  s.particles.length

/-- The effect pass 1 has on particle `j`, as a function of the ghost
assignment record `a`: ineligible particles are marked not-forming,
assigned particles receive their target, untouched particles are left
alone. -/
def pass1Write (coords : List (ℚ × ℚ)) (k : ℕ) (a : Option ℕ) (j : ℕ)
    (p : Particle ℚ) : Particle ℚ :=
  if k ≤ j then markNotForming p
  else
    match a with
    | some t => writeTarget (coords.getD t (0, 0)) p
    | none => p

/-- Lockstep invariant for running pass 1 on two particle lists that agree
in length and positions: the used set and the ghost record evolve
identically, and each run's particle list is characterized pointwise by
the ghost record via `pass1Write`. -/
structure P1Par (coords : List (ℚ × ℚ)) (ps qs : List (Particle ℚ)) (i : ℕ)
    (S T : AState) : Prop where
  used_eq : T.used = S.used
  asg_eq : T.asg = S.asg
  slen : S.qs.length = ps.length
  tlen : T.qs.length = qs.length
  alen : S.asg.length = ps.length
  asg_none : ∀ j, i ≤ j → S.asg.getD j none = none
  charS : ∀ j, S.qs.getD j pdefault =
    if j < i then
      pass1Write coords (min ps.length coords.length) (S.asg.getD j none) j
        (ps.getD j pdefault)
    else ps.getD j pdefault
  charT : ∀ j, T.qs.getD j pdefault =
    if j < i then
      pass1Write coords (min ps.length coords.length) (T.asg.getD j none) j
        (qs.getD j pdefault)
    else qs.getD j pdefault

/-- Bookkeeping invariant on the used set and the ghost record during
pass 1: recorded indices are processed and eligible, point into the target
list and the used set, the used set is exactly the recorded indices, the
record is injective, and the used set's size counts the recorded
particles. -/
structure P1Props (coords : List (ℚ × ℚ)) (n i : ℕ) (st : AState) : Prop where
  alen : st.asg.length = n
  bound : ∀ j, st.asg.getD j none ≠ none → j < i ∧ j < min n coords.length
  someSpec : ∀ j t, st.asg.getD j none = some t → t < coords.length ∧ t ∈ st.used
  usedSpec : ∀ t, t ∈ st.used → ∃ j, st.asg.getD j none = some t
  inj : ∀ j1 j2 t, st.asg.getD j1 none = some t → st.asg.getD j2 none = some t →
    j1 = j2
  card : st.used.card =
    ((Finset.range i).filter (fun j => (st.asg.getD j none).isSome = true)).card

/-- Invariant of the second assignment pass, relative to the pass-1 output
`S1`: unprocessed particles and their records are untouched; processed
forming or ineligible particles are kept as-is; processed eligible
non-forming particles have been assigned a fresh in-range target; the
cursor only passes used indices; the used set stays in range, matches the
ghost record injectively, and is bounded by the forming count among
eligible particles. -/
structure P2Inv (coords : List (ℚ × ℚ)) (n : ℕ) (S1 : AState) (i : ℕ)
    (st : AState) : Prop where
  qlen : st.qs.length = n
  alen : st.asg.length = n
  untouchedQ : ∀ j, i ≤ j → st.qs.getD j pdefault = S1.qs.getD j pdefault
  untouchedA : ∀ j, i ≤ j → st.asg.getD j none = S1.asg.getD j none
  doneKeep : ∀ j, j < i →
    ((S1.qs.getD j pdefault).is_forming = true ∨ min n coords.length ≤ j) →
    st.qs.getD j pdefault = S1.qs.getD j pdefault ∧
      st.asg.getD j none = S1.asg.getD j none
  doneAsg : ∀ j, j < i → (S1.qs.getD j pdefault).is_forming = false →
    j < min n coords.length →
    ∃ t, t < coords.length ∧ t ∈ st.used ∧ st.asg.getD j none = some t ∧
      st.qs.getD j pdefault = writeTarget (coords.getD t (0, 0)) (S1.qs.getD j pdefault)
  cover : ∀ t, t < st.unusedIdx → t ∈ st.used
  usedLt : ∀ t, t ∈ st.used → t < coords.length
  asgUsed : ∀ j t, st.asg.getD j none = some t → t ∈ st.used
  inj : ∀ j1 j2 t, st.asg.getD j1 none = some t → st.asg.getD j2 none = some t →
    j1 = j2
  cardle : st.used.card ≤
    ((Finset.range (min n coords.length)).filter
      (fun j => (st.qs.getD j pdefault).is_forming = true)).card

/-- The per-particle fields the assignment engine never writes: position,
velocity, size, behavioral parameters and type. -/
def baseOf (p : Particle ℚ) :
    ℚ × ℚ × ℚ × ℚ × ℚ × ℚ × ℚ × ℚ × ℚ × ParticleType :=
  (p.x, p.y, p.vx, p.vy, p.size, p.friction, p.ease, p.max_speed,
    p.attraction_strength, p.particle_type)

/-- Concrete particle used by witness instantiations. -/
def wParticle : Particle ℚ :=
  { x := 0, y := 0, vx := 0, vy := 0, target_x := 0, target_y := 0,
    is_forming := false, size := 1, friction := 1, ease := 1, max_speed := 1,
    attraction_strength := 1, particle_type := ParticleType.Scout }

/-- Concrete substrate used by witness instantiations. -/
def wSub : SwarmSubstrate ℚ :=
  { particles := [wParticle], text_coords := [], render_buffer := [0, 0, 0, 0],
    width := 100, height := 100, mouse_x := 0, mouse_y := 0,
    mouse_active := false, time := 0 }

def staleParticle : Particle ℚ :=
  { x := 0, y := 0, vx := 0, vy := 0, target_x := 7, target_y := 7,
    is_forming := true, size := 1, friction := 1, ease := 1, max_speed := 1,
    attraction_strength := 1, particle_type := ParticleType.Scout }

/-- Rust's `f32::atan2(y, x)` idealised over the reals. -/
noncomputable def atan2 (y x : ℝ) : ℝ :=
  if 0 < x then Real.arctan (y / x)
  else if x < 0 then
    (if 0 ≤ y then Real.arctan (y / x) + Real.pi else Real.arctan (y / x) - Real.pi)
  else
    (if 0 < y then Real.pi / 2 else if y < 0 then -(Real.pi / 2) else 0)

/-- The mouse-repulsion force of `step` (zero when the pointer is inactive,
out of radius, or exactly on the particle). -/
noncomputable def mouseForce (mx my : ℝ) (ma : Bool) (p : Particle ℝ) : ℝ × ℝ :=
  if ma = true then
    let mdx := mx - p.x
    let mdy := my - p.y
    let dist := Real.sqrt (mdx * mdx + mdy * mdy)
    if dist < 150 ∧ 0 < dist then
      let force := (150 - dist) / 150
      let angle := atan2 mdy mdx
      (-(Real.cos angle) * force * 5, -(Real.sin angle) * force * 5)
    else (0, 0)
  else (0, 0)

/-- Velocity after force accumulation and boundary bounce, before friction
and the speed clamp: forming particles accelerate toward the breathing
target; floating particles take the (scaled) repulsion force and have a
velocity component sign-flipped while out of bounds. -/
noncomputable def velAfterForces (w h mx my : ℝ) (ma : Bool) (t : ℝ)
    (p : Particle ℝ) : ℝ × ℝ :=
  if p.is_forming = true then
    let breathing := Real.sin (t + p.y * 0.05) * 2
    let tx := p.target_x + breathing
    let ty := p.target_y + breathing
    (p.vx + ((tx - p.x) * p.ease * p.attraction_strength +
      (mouseForce mx my ma p).1) * 0.1,
     p.vy + ((ty - p.y) * p.ease * p.attraction_strength +
      (mouseForce mx my ma p).2) * 0.1)
  else
    ((if p.x < 0 ∨ w < p.x then (p.vx + (mouseForce mx my ma p).1 * 0.5) * (-1)
      else p.vx + (mouseForce mx my ma p).1 * 0.5),
     (if p.y < 0 ∨ h < p.y then (p.vy + (mouseForce mx my ma p).2 * 0.5) * (-1)
      else p.vy + (mouseForce mx my ma p).2 * 0.5))

/-- The speed clamp: rescale to `max_speed` when the magnitude exceeds it. -/
noncomputable def clampVelocity (maxSpeed vx vy : ℝ) : ℝ × ℝ :=
  if maxSpeed < Real.sqrt (vx * vx + vy * vy) then
    (vx / Real.sqrt (vx * vx + vy * vy) * maxSpeed,
     vy / Real.sqrt (vx * vx + vy * vy) * maxSpeed)
  else (vx, vy)

/-- One `step()` iteration for a single particle: forces, boundary
handling, friction, speed clamp, position integration. -/
noncomputable def stepParticle (w h mx my : ℝ) (ma : Bool) (t : ℝ)
    (p : Particle ℝ) : Particle ℝ :=
  { p with
    x := p.x + (clampVelocity p.max_speed
      ((velAfterForces w h mx my ma t p).1 * p.friction)
      ((velAfterForces w h mx my ma t p).2 * p.friction)).1,
    y := p.y + (clampVelocity p.max_speed
      ((velAfterForces w h mx my ma t p).1 * p.friction)
      ((velAfterForces w h mx my ma t p).2 * p.friction)).2,
    vx := (clampVelocity p.max_speed
      ((velAfterForces w h mx my ma t p).1 * p.friction)
      ((velAfterForces w h mx my ma t p).2 * p.friction)).1,
    vy := (clampVelocity p.max_speed
      ((velAfterForces w h mx my ma t p).1 * p.friction)
      ((velAfterForces w h mx my ma t p).2 * p.friction)).2 }

/-- The operation `step()`: advance the clock by the fixed increment and update every
particle. -/
noncomputable def step (s : SwarmSubstrate ℝ) : SwarmSubstrate ℝ :=
  { s with
    time := s.time + 0.02,
    particles := s.particles.map
      (stepParticle s.width s.height s.mouse_x s.mouse_y s.mouse_active
        (s.time + 0.02)) }

/-- Concrete real-valued particle for witnesses. -/
def wParticleR : Particle ℝ :=
  { x := 0, y := 0, vx := 3, vy := 4, target_x := 0, target_y := 0,
    is_forming := false, size := 1, friction := 1, ease := 1, max_speed := 1,
    attraction_strength := 1, particle_type := ParticleType.Scout }

/-- Concrete real-valued substrate for witnesses. -/
def wSubR : SwarmSubstrate ℝ :=
  { particles := [wParticleR], text_coords := [], render_buffer := [0, 0, 0, 0],
    width := 100, height := 100, mouse_x := 0, mouse_y := 0,
    mouse_active := false, time := 0 }

/-- Invariant-preservation principle for a left fold over `List.range n`. -/
theorem foldl_range_inv {σ : Type} (f : σ → ℕ → σ) (P : ℕ → σ → Prop) (init : σ)
    (n : ℕ) (h0 : P 0 init) (hstep : ∀ i s, i < n → P i s → P (i + 1) (f s i)) :
    P n ((List.range n).foldl f init) := by
  induction n with
  | zero => simpa using h0
  | succ n ih =>
      rw [List.range_succ, List.foldl_append]
      exact hstep n _ (Nat.lt_succ_self n)
        (ih (fun i s hi hs => hstep i s (Nat.lt_succ_of_lt hi) hs))

/-- Relational (two-fold lockstep) invariant principle over `List.range n`. -/
theorem foldl_range_rel {σ τ : Type} (f : σ → ℕ → σ) (g : τ → ℕ → τ)
    (R : ℕ → σ → τ → Prop) (a : σ) (b : τ) (n : ℕ) (h0 : R 0 a b)
    (hstep : ∀ i s t, i < n → R i s t → R (i + 1) (f s i) (g t i)) :
    R n ((List.range n).foldl f a) ((List.range n).foldl g b) := by
  induction n with
  | zero => simpa using h0
  | succ n ih =>
      rw [List.range_succ, List.foldl_append, List.foldl_append]
      exact hstep n _ _ (Nat.lt_succ_self n)
        (ih (fun i s t hi hst => hstep i s t (Nat.lt_succ_of_lt hi) hst))

/-- Reading with `getD` after `set` at the written (in-range) index. -/
theorem getD_set_self {α : Type} (l : List α) (i : ℕ) (a d : α) (h : i < l.length) :
    (l.set i a).getD i d = a := by
  rw [List.getD_eq_getElem?_getD, List.getElem?_set_self h]
  rfl

/-- Reading with `getD` after `set` at a different index. -/
theorem getD_set_ne {α : Type} (l : List α) (i j : ℕ) (a d : α) (h : i ≠ j) :
    (l.set i a).getD j d = l.getD j d := by
  rw [List.getD_eq_getElem?_getD, List.getElem?_set_ne h, ← List.getD_eq_getElem?_getD]

/-- Reading with `getD` on `replicate` with its own default. -/
theorem getD_replicate {α : Type} (n j : ℕ) (d : α) :
    (List.replicate n d).getD j d = d := by
  rw [List.getD_eq_getElem?_getD, List.getElem?_replicate]
  by_cases h : j < n <;> simp [h]

/-- Counting principle: if membership of the property is exactly the indices
below `m`, the count is `m`. -/
theorem countP_eq_of_iff_lt {α : Type} (p : α → Bool) (d : α) :
    ∀ (l : List α) (m : ℕ), m ≤ l.length →
      (∀ j, j < l.length → (p (l.getD j d) = true ↔ j < m)) →
      l.countP p = m := by
  intro l
  induction l with
  | nil => intro m hm _; simp at hm ⊢; omega
  | cons a t ih =>
      intro m hm hp
      match m with
      | 0 =>
          have ha : ¬ p a = true := by
            intro hpa
            have := (hp 0 (Nat.succ_pos _)).1 (by simpa using hpa)
            omega
          have ht : t.countP p = 0 := by
            refine ih 0 (Nat.zero_le _) ?_
            intro j hj
            constructor
            · intro hpj
              have := (hp (j + 1) (by simpa using Nat.succ_lt_succ hj)).1
                (by simpa using hpj)
              omega
            · omega
          simp [List.countP_cons, ha, ht]
      | m + 1 =>
          have ha : p a = true := (hp 0 (Nat.succ_pos _)).2 (Nat.succ_pos m)
          have ht : t.countP p = m := by
            refine ih m (by simpa using hm) ?_
            intro j hj
            have := hp (j + 1) (by simpa using Nat.succ_lt_succ hj)
            simpa [Nat.succ_lt_succ_iff] using this
          simp [List.countP_cons, ha, ht]

/-- Splitting a list's length into a count and its complement count. -/
theorem countP_not_eq {α : Type} (p : α → Bool) (l : List α) :
    l.countP (fun a => ! p a) = l.length - l.countP p := by
  induction l with
  | nil => simp
  | cons a t ih =>
      have hle : t.countP p ≤ t.length := List.countP_le_length p
      by_cases h : p a = true <;>
        simp [List.countP_cons, h, ih] <;> omega

/-- The scan `skipUsedAux` never moves the cursor backwards, only skips used indices
below `m`, and stops on an unused index when it stops below `m`. -/
theorem skipUsedAux_spec (used : Finset ℕ) (m : ℕ) :
    ∀ fuel u, m - u ≤ fuel →
      u ≤ skipUsedAux used m fuel u ∧
      (∀ t, u ≤ t → t < skipUsedAux used m fuel u → t ∈ used) ∧
      (skipUsedAux used m fuel u < m → skipUsedAux used m fuel u ∉ used) := by
  intro fuel
  induction fuel with
  | zero =>
      intro u hf
      have hmu : m ≤ u := by omega
      refine ⟨Nat.le_refl _, ?_, ?_⟩
      · intro t h1 h2; simp [skipUsedAux] at h2; omega
      · intro h; simp [skipUsedAux] at h ⊢; omega
  | succ fuel ih =>
      intro u hf
      by_cases hc : u < m ∧ u ∈ used
      · have heq : skipUsedAux used m (fuel + 1) u = skipUsedAux used m fuel (u + 1) := by
          simp [skipUsedAux, hc]
        obtain ⟨h1, h2, h3⟩ := ih (u + 1) (by omega)
        refine ⟨by omega, ?_, by rw [heq]; exact h3⟩
        intro t ht1 ht2
        rcases Nat.eq_or_lt_of_le ht1 with rfl | hlt
        · exact hc.2
        · exact h2 t hlt (by rwa [heq] at ht2)
      · have heq : skipUsedAux used m (fuel + 1) u = u := by
          simp only [skipUsedAux, if_neg hc]
        refine ⟨by omega, ?_, ?_⟩
        · intro t h1 h2; rw [heq] at h2; omega
        · intro h; rw [heq] at h ⊢; tauto

/-- Specification of `skipUsed` (the pass-2 `while` loop). -/
theorem skipUsed_spec (used : Finset ℕ) (m u : ℕ) :
    u ≤ skipUsed used m u ∧
    (∀ t, u ≤ t → t < skipUsed used m u → t ∈ used) ∧
    (skipUsed used m u < m → skipUsed used m u ∉ used) :=
  skipUsedAux_spec used m (m - u) u (Nat.le_refl _)

/-- The fold under `scanBest` only ever answers with the accumulator or a candidate. -/
theorem scanBest_foldl_mem (coords : List (ℚ × ℚ)) (px py : ℚ) :
    ∀ (cands : List ℕ) (acc : Option (ℕ × ℚ)) (t : ℕ) (d : ℚ),
      (cands.foldl
        (fun acc t =>
          let c := coords.getD t (0, 0)
          let dist := (px - c.1) * (px - c.1) + (py - c.2) * (py - c.2)
          match acc with
          | none => some (t, dist)
          | some (bt, bd) => if dist < bd then some (t, dist) else some (bt, bd))
        acc) = some (t, d) →
      acc = some (t, d) ∨ t ∈ cands := by
  intro cands
  induction cands with
  | nil => intro acc t d h; exact Or.inl (by simpa using h)
  | cons c cs ih =>
      intro acc t d h
      rw [List.foldl_cons] at h
      rcases ih _ t d h with hacc | hmem
      · rcases acc with _ | ⟨bt, bd⟩
        · dsimp only at hacc
          have hc : c = t := congrArg Prod.fst (Option.some.inj hacc)
          exact Or.inr (hc ▸ List.mem_cons_self c cs)
        · dsimp only at hacc
          split at hacc
          · have hc : c = t := congrArg Prod.fst (Option.some.inj hacc)
            exact Or.inr (hc ▸ List.mem_cons_self c cs)
          · exact Or.inl hacc
      · exact Or.inr (List.mem_cons_of_mem c hmem)

/-- A successful `scanBest` answer is one of the candidates. -/
theorem scanBest_mem (coords : List (ℚ × ℚ)) (px py : ℚ) (cands : List ℕ)
    (t : ℕ) (d : ℚ) (h : scanBest coords px py cands = some (t, d)) :
    t ∈ cands := by
  rcases scanBest_foldl_mem coords px py cands none t d h with hacc | hmem
  · cases hacc
  · exact hmem

/-- Every index produced by a grid lookup indexes into the target list. -/
theorem gridLookup_lt (coords : List (ℚ × ℚ)) (key : ℤ × ℤ) (t : ℕ)
    (h : t ∈ gridLookup coords key) : t < coords.length := by
  unfold gridLookup at h
  rcases List.mem_map.mp h with ⟨e, he, rfl⟩
  have := List.mem_filter.mp he
  rcases this with ⟨henum, _⟩
  obtain ⟨hlt, _⟩ := List.mem_enum (x := e.2) (i := e.1) (by cases e; exact henum)
  exact hlt

theorem pass1Write_of_le {coords : List (ℚ × ℚ)} {k : ℕ} {a : Option ℕ} {j : ℕ}
    {p : Particle ℚ} (h : k ≤ j) : pass1Write coords k a j p = markNotForming p := by
  simp [pass1Write, h]

theorem pass1Write_some {coords : List (ℚ × ℚ)} {k j : ℕ} {p : Particle ℚ} {t : ℕ}
    (h : ¬ k ≤ j) :
    pass1Write coords k (some t) j p = writeTarget (coords.getD t (0, 0)) p := by
  simp [pass1Write, h]

theorem pass1Write_none {coords : List (ℚ × ℚ)} {k j : ℕ} {p : Particle ℚ}
    (h : ¬ k ≤ j) : pass1Write coords k none j p = p := by
  simp [pass1Write, h]

/-- A successful pass-1 decision picks an in-range, not-yet-used target
index. -/
theorem pass1Choice_spec (coords : List (ℚ × ℚ)) (used : Finset ℕ) (px py : ℚ)
    (t : ℕ) (d : ℚ) (h : pass1Choice coords used px py = some (t, d)) :
    t < coords.length ∧ t ∉ used := by
  have hmem := scanBest_mem coords px py _ t d h
  have hf := List.mem_filter.mp hmem
  refine ⟨?_, by simpa using hf.2⟩
  rcases List.mem_flatMap.mp hf.1 with ⟨dxy, _, hmem2⟩
  exact gridLookup_lt coords _ t hmem2

/-- One pass-1 iteration preserves the lockstep invariant. -/
theorem P1Par_step (coords : List (ℚ × ℚ)) (ps qs : List (Particle ℚ))
    (hlen : qs.length = ps.length)
    (hx : ∀ j, (qs.getD j pdefault).x = (ps.getD j pdefault).x)
    (hy : ∀ j, (qs.getD j pdefault).y = (ps.getD j pdefault).y)
    (i : ℕ) (S T : AState) (hi : i < ps.length)
    (h : P1Par coords ps qs i S T) :
    P1Par coords ps qs (i + 1)
      (pass1Step coords (min ps.length coords.length) S i)
      (pass1Step coords (min ps.length coords.length) T i) := by
  set k := min ps.length coords.length with hkdef
  have hSi : S.qs.getD i pdefault = ps.getD i pdefault := by
    have := h.charS i; rwa [if_neg (lt_irrefl i)] at this
  have hTi : T.qs.getD i pdefault = qs.getD i pdefault := by
    have := h.charT i; rwa [if_neg (lt_irrefl i)] at this
  have hiS : i < S.qs.length := h.slen ▸ hi
  have hiT : i < T.qs.length := by rw [h.tlen, hlen]; exact hi
  have hiA : i < S.asg.length := h.alen ▸ hi
  have hiTA : i < T.asg.length := by rw [h.asg_eq]; exact hiA
  by_cases hk : k ≤ i
  · -- ineligible index: both runs clear the forming flag
    simp only [pass1Step, if_pos hk]
    refine ⟨h.used_eq, h.asg_eq, ?_, ?_, h.alen, ?_, ?_, ?_⟩
    · rw [List.length_set]; exact h.slen
    · rw [List.length_set]; exact h.tlen
    · intro j hj; exact h.asg_none j (by omega)
    · intro j
      by_cases hij : j = i
      · subst hij
        rw [getD_set_self _ _ _ _ hiS, hSi, if_pos (Nat.lt_succ_self j),
          pass1Write_of_le hk]
      · rw [getD_set_ne _ _ _ _ _ (fun hh => hij hh.symm), h.charS j]
        rcases Nat.lt_or_ge j i with hj | hj
        · rw [if_pos hj, if_pos (Nat.lt_succ_of_lt hj)]
        · have hj1 : ¬ j < i := by omega
          have hj2 : ¬ j < i + 1 := by omega
          rw [if_neg hj1, if_neg hj2]
    · intro j
      by_cases hij : j = i
      · subst hij
        rw [getD_set_self _ _ _ _ hiT, hTi, if_pos (Nat.lt_succ_self j),
          pass1Write_of_le hk]
      · rw [getD_set_ne _ _ _ _ _ (fun hh => hij hh.symm), h.charT j]
        rcases Nat.lt_or_ge j i with hj | hj
        · rw [if_pos hj, if_pos (Nat.lt_succ_of_lt hj)]
        · have hj1 : ¬ j < i := by omega
          have hj2 : ¬ j < i + 1 := by omega
          rw [if_neg hj1, if_neg hj2]
  · -- eligible index: both runs make the same decision
    have hich : pass1Choice coords T.used (T.qs.getD i pdefault).x
        (T.qs.getD i pdefault).y =
        pass1Choice coords S.used (S.qs.getD i pdefault).x
          (S.qs.getD i pdefault).y := by
      rw [h.used_eq, hSi, hTi, hx i, hy i]
    simp only [pass1Step, if_neg hk, hich]
    cases hch : pass1Choice coords S.used (S.qs.getD i pdefault).x
        (S.qs.getD i pdefault).y with
    | none =>
        refine ⟨h.used_eq, h.asg_eq, h.slen, h.tlen, h.alen, ?_, ?_, ?_⟩
        · intro j hj; exact h.asg_none j (by omega)
        · intro j
          by_cases hij : j = i
          · subst hij
            rw [hSi, if_pos (Nat.lt_succ_self j), h.asg_none j (le_refl j),
              pass1Write_none hk]
          · rw [h.charS j]
            rcases Nat.lt_or_ge j i with hj | hj
            · rw [if_pos hj, if_pos (Nat.lt_succ_of_lt hj)]
            · have hj1 : ¬ j < i := by omega
              have hj2 : ¬ j < i + 1 := by omega
              rw [if_neg hj1, if_neg hj2]
        · intro j
          by_cases hij : j = i
          · subst hij
            have hTn : T.asg.getD j none = none := by
              rw [h.asg_eq]; exact h.asg_none j (le_refl j)
            rw [hTi, if_pos (Nat.lt_succ_self j), hTn, pass1Write_none hk]
          · rw [h.charT j]
            rcases Nat.lt_or_ge j i with hj | hj
            · rw [if_pos hj, if_pos (Nat.lt_succ_of_lt hj)]
            · have hj1 : ¬ j < i := by omega
              have hj2 : ¬ j < i + 1 := by omega
              rw [if_neg hj1, if_neg hj2]
    | some td =>
        obtain ⟨t, d⟩ := td
        refine ⟨?_, ?_, ?_, ?_, ?_, ?_, ?_, ?_⟩
        · show insert t T.used = insert t S.used
          rw [h.used_eq]
        · show T.asg.set i (some t) = S.asg.set i (some t)
          rw [h.asg_eq]
        · show (S.qs.set i _).length = ps.length
          rw [List.length_set]; exact h.slen
        · show (T.qs.set i _).length = qs.length
          rw [List.length_set]; exact h.tlen
        · show (S.asg.set i (some t)).length = ps.length
          rw [List.length_set]; exact h.alen
        · intro j hj
          show (S.asg.set i (some t)).getD j none = none
          rw [getD_set_ne _ _ _ _ _ (by omega)]
          exact h.asg_none j (by omega)
        · intro j
          by_cases hij : j = i
          · subst hij
            show (S.qs.set j _).getD j pdefault = _
            rw [getD_set_self _ _ _ _ hiS, hSi, if_pos (Nat.lt_succ_self j),
              getD_set_self _ _ _ _ hiA, pass1Write_some hk]
          · show (S.qs.set i _).getD j pdefault = _
            rw [getD_set_ne _ _ _ _ _ (fun hh => hij hh.symm),
              getD_set_ne _ _ _ _ _ (fun hh => hij hh.symm), h.charS j]
            rcases Nat.lt_or_ge j i with hj | hj
            · rw [if_pos hj, if_pos (Nat.lt_succ_of_lt hj)]
            · have hj1 : ¬ j < i := by omega
              have hj2 : ¬ j < i + 1 := by omega
              rw [if_neg hj1, if_neg hj2]
        · intro j
          by_cases hij : j = i
          · subst hij
            show (T.qs.set j _).getD j pdefault = _
            rw [getD_set_self _ _ _ _ hiT, hTi, if_pos (Nat.lt_succ_self j),
              getD_set_self _ _ _ _ hiTA, pass1Write_some hk]
          · show (T.qs.set i _).getD j pdefault = _
            rw [getD_set_ne _ _ _ _ _ (fun hh => hij hh.symm),
              getD_set_ne _ _ _ _ _ (fun hh => hij hh.symm), h.charT j]
            rcases Nat.lt_or_ge j i with hj | hj
            · rw [if_pos hj, if_pos (Nat.lt_succ_of_lt hj)]
            · have hj1 : ¬ j < i := by omega
              have hj2 : ¬ j < i + 1 := by omega
              rw [if_neg hj1, if_neg hj2]

/-- Running pass 1 on two position-identical particle lists yields the
same used set, the same ghost record, and `pass1Write`-characterized
particle lists.  -/
theorem pass1_par (coords : List (ℚ × ℚ)) (ps qs : List (Particle ℚ))
    (hlen : qs.length = ps.length)
    (hx : ∀ j, (qs.getD j pdefault).x = (ps.getD j pdefault).x)
    (hy : ∀ j, (qs.getD j pdefault).y = (ps.getD j pdefault).y) :
    P1Par coords ps qs ps.length (pass1 coords ps) (pass1 coords qs) := by
  unfold pass1
  rw [hlen]
  refine foldl_range_rel _ _ (P1Par coords ps qs) _ _ ps.length ?_ ?_
  · refine ⟨rfl, rfl, rfl, rfl, by simp, ?_, ?_, ?_⟩
    · intro j _; exact getD_replicate _ _ _
    · intro j; rw [if_neg (Nat.not_lt_zero j)]
    · intro j; rw [if_neg (Nat.not_lt_zero j)]
  · intro i s t hi hst
    exact P1Par_step coords ps qs hlen hx hy i s t hi hst

/-- Single-run corollary: pass 1's output characterized by its ghost
record. -/
theorem pass1_char (coords : List (ℚ × ℚ)) (ps : List (Particle ℚ)) :
    P1Par coords ps ps ps.length (pass1 coords ps) (pass1 coords ps) :=
  pass1_par coords ps ps rfl (fun _ => rfl) (fun _ => rfl)

/-- One pass-1 iteration preserves the bookkeeping invariant. -/
theorem P1Props_step (coords : List (ℚ × ℚ)) (n i : ℕ) (st : AState)
    (hi : i < n) (h : P1Props coords n i st) :
    P1Props coords n (i + 1) (pass1Step coords (min n coords.length) st i) := by
  have hasgi : st.asg.getD i none = none := by
    by_contra hne
    exact absurd (h.bound i hne).1 (lt_irrefl i)
  have hiA : i < st.asg.length := h.alen ▸ hi
  have hcard_same :
      ((Finset.range (i + 1)).filter
          (fun j => (st.asg.getD j none).isSome = true)).card =
        ((Finset.range i).filter
          (fun j => (st.asg.getD j none).isSome = true)).card := by
    rw [Finset.range_succ, Finset.filter_insert, if_neg (by rw [hasgi]; simp)]
  by_cases hk : min n coords.length ≤ i
  · simp only [pass1Step, if_pos hk]
    refine ⟨h.alen, ?_, h.someSpec, h.usedSpec, h.inj, ?_⟩
    · intro j hj; obtain ⟨h1, h2⟩ := h.bound j hj; exact ⟨by omega, h2⟩
    · rw [hcard_same]; exact h.card
  · simp only [pass1Step, if_neg hk]
    cases hch : pass1Choice coords st.used (st.qs.getD i pdefault).x
        (st.qs.getD i pdefault).y with
    | none =>
        refine ⟨h.alen, ?_, h.someSpec, h.usedSpec, h.inj, ?_⟩
        · intro j hj; obtain ⟨h1, h2⟩ := h.bound j hj; exact ⟨by omega, h2⟩
        · rw [hcard_same]; exact h.card
    | some td =>
        obtain ⟨t, d⟩ := td
        obtain ⟨htm, htu⟩ := pass1Choice_spec coords st.used _ _ t d hch
        refine ⟨?_, ?_, ?_, ?_, ?_, ?_⟩
        · show (st.asg.set i (some t)).length = n
          rw [List.length_set]; exact h.alen
        · intro j hj
          by_cases hij : j = i
          · subst hij; exact ⟨Nat.lt_succ_self j, by omega⟩
          · rw [getD_set_ne _ _ _ _ _ (fun hh => hij hh.symm)] at hj
            obtain ⟨h1, h2⟩ := h.bound j hj; exact ⟨by omega, h2⟩
        · intro j t' hj
          by_cases hij : j = i
          · subst hij
            rw [getD_set_self _ _ _ _ hiA] at hj
            obtain rfl : t = t' := Option.some.inj hj
            exact ⟨htm, Finset.mem_insert_self t _⟩
          · rw [getD_set_ne _ _ _ _ _ (fun hh => hij hh.symm)] at hj
            obtain ⟨h1, h2⟩ := h.someSpec j t' hj
            exact ⟨h1, Finset.mem_insert_of_mem h2⟩
        · intro t' ht'
          rcases Finset.mem_insert.mp ht' with rfl | hold
          · exact ⟨i, by rw [getD_set_self _ _ _ _ hiA]⟩
          · obtain ⟨j, hj⟩ := h.usedSpec t' hold
            have hji : j ≠ i := by
              intro hh; subst hh; rw [hasgi] at hj; cases hj
            exact ⟨j, by rw [getD_set_ne _ _ _ _ _ (fun hh => hji hh.symm)]; exact hj⟩
        · intro j1 j2 t' h1 h2
          by_cases hj1 : j1 = i <;> by_cases hj2 : j2 = i
          · rw [hj1, hj2]
          · subst hj1
            rw [getD_set_self _ _ _ _ hiA] at h1
            rw [getD_set_ne _ _ _ _ _ (fun hh => hj2 hh.symm)] at h2
            obtain rfl : t = t' := Option.some.inj h1
            exact absurd (h.someSpec j2 t h2).2 htu
          · subst hj2
            rw [getD_set_self _ _ _ _ hiA] at h2
            rw [getD_set_ne _ _ _ _ _ (fun hh => hj1 hh.symm)] at h1
            obtain rfl : t = t' := Option.some.inj h2
            exact absurd (h.someSpec j1 t h1).2 htu
          · rw [getD_set_ne _ _ _ _ _ (fun hh => hj1 hh.symm)] at h1
            rw [getD_set_ne _ _ _ _ _ (fun hh => hj2 hh.symm)] at h2
            exact h.inj j1 j2 t' h1 h2
        · show (insert t st.used).card = _
          rw [Finset.card_insert_of_not_mem htu, h.card]
          have hfeq :
              (Finset.range i).filter
                  (fun j => ((st.asg.set i (some t)).getD j none).isSome = true) =
                (Finset.range i).filter
                  (fun j => (st.asg.getD j none).isSome = true) := by
            apply Finset.filter_congr
            intro j hj
            have hji : i ≠ j := by
              intro hh; subst hh; exact Nat.lt_irrefl _ (Finset.mem_range.mp hj)
            rw [getD_set_ne _ _ _ _ _ hji]
          rw [Finset.range_succ, Finset.filter_insert,
            if_pos (by rw [getD_set_self _ _ _ _ hiA]; rfl), hfeq,
            Finset.card_insert_of_not_mem (fun hmem => absurd
              (Finset.mem_range.mp (Finset.mem_of_mem_filter i hmem)) (lt_irrefl i))]

/-- Pass 1 satisfies the bookkeeping invariant. -/
theorem pass1_props (coords : List (ℚ × ℚ)) (ps : List (Particle ℚ)) :
    P1Props coords ps.length ps.length (pass1 coords ps) := by
  unfold pass1
  refine foldl_range_inv _ (P1Props coords ps.length) _ ps.length ?_ ?_
  · refine ⟨by simp, ?_, ?_, ?_, ?_, ?_⟩
    · intro j hj; exact absurd (getD_replicate _ _ _) hj
    · intro j t hj; rw [getD_replicate] at hj; cases hj
    · intro t ht; exact absurd ht (Finset.not_mem_empty t)
    · intro j1 j2 t h1 _; rw [getD_replicate] at h1; cases h1
    · simp
  · intro i s hi hs; exact P1Props_step coords ps.length i s hi hs

/-- After pass 1, the used set is no larger than the number of forming
particles in the eligible range. -/
theorem pass1_card_le (coords : List (ℚ × ℚ)) (ps : List (Particle ℚ)) :
    (pass1 coords ps).used.card ≤
      ((Finset.range (min ps.length coords.length)).filter
        (fun j => ((pass1 coords ps).qs.getD j pdefault).is_forming = true)).card := by
  have hprops := pass1_props coords ps
  have hchar := pass1_char coords ps
  rw [hprops.card]
  have hfeq :
      (Finset.range ps.length).filter
          (fun j => ((pass1 coords ps).asg.getD j none).isSome = true) =
        (Finset.range (min ps.length coords.length)).filter
          (fun j => ((pass1 coords ps).asg.getD j none).isSome = true) := by
    apply Finset.ext
    intro j
    simp only [Finset.mem_filter, Finset.mem_range]
    constructor
    · rintro ⟨hjn, hsome⟩
      refine ⟨?_, hsome⟩
      obtain ⟨t, ht⟩ := Option.isSome_iff_exists.mp hsome
      exact (hprops.bound j (by rw [ht]; exact fun hh => Option.noConfusion hh)).2
    · rintro ⟨hjk, hsome⟩
      exact ⟨lt_of_lt_of_le hjk (Nat.min_le_left _ _), hsome⟩
  rw [hfeq]
  refine Finset.card_le_card (Finset.monotone_filter_right _ ?_)
  intro j hsome
  obtain ⟨t, ht⟩ := Option.isSome_iff_exists.mp hsome
  have hjk : j < min ps.length coords.length :=
    (hprops.bound j (by rw [ht]; exact fun hh => Option.noConfusion hh)).2
  have hjn : j < ps.length := lt_of_lt_of_le hjk (Nat.min_le_left _ _)
  have := hchar.charS j
  rw [if_pos hjn, ht, pass1Write_some (by omega)] at this
  rw [this]
  rfl

/-- One pass-2 iteration preserves the invariant; in particular an
eligible non-forming particle always finds an unused target (the cursor
cannot exhaust the target list while such a particle exists). -/
theorem P2Inv_step (coords : List (ℚ × ℚ)) (n : ℕ) (S1 : AState) (i : ℕ)
    (st : AState) (hi : i < n) (h : P2Inv coords n S1 i st) :
    P2Inv coords n S1 (i + 1) (pass2Step coords (min n coords.length) st i) := by
  have hqi : st.qs.getD i pdefault = S1.qs.getD i pdefault :=
    h.untouchedQ i (le_refl i)
  have hai : st.asg.getD i none = S1.asg.getD i none :=
    h.untouchedA i (le_refl i)
  have hiQ : i < st.qs.length := h.qlen ▸ hi
  have hiA : i < st.asg.length := h.alen ▸ hi
  by_cases hcond : (st.qs.getD i pdefault).is_forming = true ∨ min n coords.length ≤ i
  · -- skipped: already forming or ineligible
    unfold pass2Step
    rw [if_pos hcond]
    refine ⟨h.qlen, h.alen, ?_, ?_, ?_, ?_, h.cover, h.usedLt, h.asgUsed, h.inj,
      h.cardle⟩
    · intro j hj; exact h.untouchedQ j (by omega)
    · intro j hj; exact h.untouchedA j (by omega)
    · intro j hj hf
      by_cases hij : j = i
      · subst hij; exact ⟨hqi, hai⟩
      · exact h.doneKeep j (by omega) hf
    · intro j hj hf hjk
      by_cases hij : j = i
      · subst hij
        rcases hcond with hc | hc
        · rw [hqi, hf] at hc; cases hc
        · omega
      · exact h.doneAsg j (by omega) hf hjk
  · -- eligible and not forming: the cursor must stop below the target count
    have hnotf : (st.qs.getD i pdefault).is_forming = false := by
      rcases Bool.eq_false_or_eq_true (st.qs.getD i pdefault).is_forming with hf | hf
      · exact absurd (Or.inl hf) hcond
      · exact hf
    have hik : i < min n coords.length := by
      rcases Nat.lt_or_ge i (min n coords.length) with hh | hh
      · exact hh
      · exact absurd (Or.inr hh) hcond
    have hS1f : (S1.qs.getD i pdefault).is_forming = false := by rw [← hqi]; exact hnotf
    obtain ⟨hle, hcov, hstop⟩ := skipUsed_spec st.used coords.length st.unusedIdx
    have hcover2 : ∀ t, t < skipUsed st.used coords.length st.unusedIdx →
        t ∈ st.used := by
      intro t ht
      rcases Nat.lt_or_ge t st.unusedIdx with h1 | h1
      · exact h.cover t h1
      · exact hcov t h1 ht
    have hu : skipUsed st.used coords.length st.unusedIdx < coords.length := by
      by_contra hno
      push_neg at hno
      have hsub : Finset.range coords.length ⊆ st.used := by
        intro t ht
        exact hcover2 t (lt_of_lt_of_le (Finset.mem_range.mp ht) hno)
      have h1 : coords.length ≤ st.used.card := by
        have := Finset.card_le_card hsub
        simpa using this
      have hsub2 : (Finset.range (min n coords.length)).filter
          (fun j => (st.qs.getD j pdefault).is_forming = true) ⊆
          (Finset.range (min n coords.length)).erase i := by
        intro j hj
        obtain ⟨hjr, hjf⟩ := Finset.mem_filter.mp hj
        refine Finset.mem_erase.mpr ⟨?_, hjr⟩
        intro hji
        subst hji
        rw [hnotf] at hjf
        cases hjf
      have h2 : ((Finset.range (min n coords.length)).filter
          (fun j => (st.qs.getD j pdefault).is_forming = true)).card ≤
          min n coords.length - 1 := by
        have := Finset.card_le_card hsub2
        rwa [Finset.card_erase_of_mem (Finset.mem_range.mpr hik),
          Finset.card_range] at this
      have h3 := h.cardle
      have hkm : min n coords.length ≤ coords.length := Nat.min_le_right n _
      omega
    have hunew : skipUsed st.used coords.length st.unusedIdx ∉ st.used := hstop hu
    unfold pass2Step
    rw [if_neg hcond, if_pos hu]
    refine ⟨?_, ?_, ?_, ?_, ?_, ?_, ?_, ?_, ?_, ?_, ?_⟩
    · show (st.qs.set i _).length = n
      rw [List.length_set]; exact h.qlen
    · show (st.asg.set i _).length = n
      rw [List.length_set]; exact h.alen
    · intro j hj
      show (st.qs.set i _).getD j pdefault = _
      rw [getD_set_ne _ _ _ _ _ (by omega)]
      exact h.untouchedQ j (by omega)
    · intro j hj
      show (st.asg.set i _).getD j none = _
      rw [getD_set_ne _ _ _ _ _ (by omega)]
      exact h.untouchedA j (by omega)
    · intro j hj hf
      by_cases hij : j = i
      · subst hij
        rcases hf with hf | hf
        · rw [hS1f] at hf; cases hf
        · omega
      · constructor
        · show (st.qs.set i _).getD j pdefault = _
          rw [getD_set_ne _ _ _ _ _ (fun hh => hij hh.symm)]
          exact (h.doneKeep j (by omega) hf).1
        · show (st.asg.set i _).getD j none = _
          rw [getD_set_ne _ _ _ _ _ (fun hh => hij hh.symm)]
          exact (h.doneKeep j (by omega) hf).2
    · intro j hj hf hjk
      by_cases hij : j = i
      · subst hij
        refine ⟨skipUsed st.used coords.length st.unusedIdx, hu,
          Finset.mem_insert_self _ _, ?_, ?_⟩
        · rw [getD_set_self _ _ _ _ hiA]
        · rw [getD_set_self _ _ _ _ hiQ, hqi]
      · obtain ⟨t, ht1, ht2, ht3, ht4⟩ := h.doneAsg j (by omega) hf hjk
        refine ⟨t, ht1, Finset.mem_insert_of_mem ht2, ?_, ?_⟩
        · rw [getD_set_ne _ _ _ _ _ (fun hh => hij hh.symm)]; exact ht3
        · rw [getD_set_ne _ _ _ _ _ (fun hh => hij hh.symm)]; exact ht4
    · intro t ht
      have ht2 : t < skipUsed st.used coords.length st.unusedIdx + 1 := ht
      show t ∈ insert _ st.used
      rcases Nat.lt_or_ge t (skipUsed st.used coords.length st.unusedIdx) with h1 | h1
      · exact Finset.mem_insert_of_mem (hcover2 t h1)
      · have : t = skipUsed st.used coords.length st.unusedIdx := by omega
        rw [this]; exact Finset.mem_insert_self _ _
    · intro t ht
      rcases Finset.mem_insert.mp ht with rfl | hold
      · exact hu
      · exact h.usedLt t hold
    · intro j t hj
      by_cases hij : j = i
      · subst hij
        rw [getD_set_self _ _ _ _ hiA] at hj
        obtain rfl := Option.some.inj hj
        exact Finset.mem_insert_self _ _
      · rw [getD_set_ne _ _ _ _ _ (fun hh => hij hh.symm)] at hj
        exact Finset.mem_insert_of_mem (h.asgUsed j t hj)
    · intro j1 j2 t h1 h2
      by_cases hj1 : j1 = i <;> by_cases hj2 : j2 = i
      · rw [hj1, hj2]
      · subst hj1
        rw [getD_set_self _ _ _ _ hiA] at h1
        rw [getD_set_ne _ _ _ _ _ (fun hh => hj2 hh.symm)] at h2
        obtain rfl := Option.some.inj h1
        exact absurd (h.asgUsed j2 _ h2) hunew
      · subst hj2
        rw [getD_set_self _ _ _ _ hiA] at h2
        rw [getD_set_ne _ _ _ _ _ (fun hh => hj1 hh.symm)] at h1
        obtain rfl := Option.some.inj h2
        exact absurd (h.asgUsed j1 _ h1) hunew
      · rw [getD_set_ne _ _ _ _ _ (fun hh => hj1 hh.symm)] at h1
        rw [getD_set_ne _ _ _ _ _ (fun hh => hj2 hh.symm)] at h2
        exact h.inj j1 j2 t h1 h2
    · show (insert _ st.used).card ≤ _
      rw [Finset.card_insert_of_not_mem hunew]
      have hfilt :
          (Finset.range (min n coords.length)).filter
              (fun j => ((st.qs.set i
                (writeTarget (coords.getD (skipUsed st.used coords.length st.unusedIdx)
                  (0, 0)) (st.qs.getD i pdefault))).getD j pdefault).is_forming = true) =
            insert i ((Finset.range (min n coords.length)).filter
              (fun j => (st.qs.getD j pdefault).is_forming = true)) := by
        apply Finset.ext
        intro j
        simp only [Finset.mem_filter, Finset.mem_insert, Finset.mem_range]
        constructor
        · rintro ⟨hjr, hjf⟩
          by_cases hij : j = i
          · exact Or.inl hij
          · rw [getD_set_ne _ _ _ _ _ (fun hh => hij hh.symm)] at hjf
            exact Or.inr ⟨hjr, hjf⟩
        · rintro (rfl | ⟨hjr, hjf⟩)
          · refine ⟨hik, ?_⟩
            rw [getD_set_self _ _ _ _ hiQ]
            rfl
          · refine ⟨hjr, ?_⟩
            by_cases hij : j = i
            · subst hij
              rw [getD_set_self _ _ _ _ hiQ]
              rfl
            · rw [getD_set_ne _ _ _ _ _ (fun hh => hij hh.symm)]
              exact hjf
      rw [hfilt, Finset.card_insert_of_not_mem (fun hmem => by
        have := (Finset.mem_filter.mp hmem).2
        rw [hnotf] at this
        cases this)]
      exact Nat.succ_le_succ h.cardle

/-- Pass 2 run on the pass-1 output establishes the invariant at the end
of the particle range. -/
theorem pass2_inv (coords : List (ℚ × ℚ)) (ps : List (Particle ℚ)) :
    P2Inv coords ps.length (pass1 coords ps) ps.length
      (pass2 coords ps.length (pass1 coords ps)) := by
  have hchar := pass1_char coords ps
  have hprops := pass1_props coords ps
  unfold pass2
  refine foldl_range_inv _ (P2Inv coords ps.length (pass1 coords ps)) _ ps.length ?_ ?_
  · refine ⟨hchar.slen, hprops.alen, fun j _ => rfl, fun j _ => rfl, ?_, ?_, ?_, ?_,
      ?_, hprops.inj, ?_⟩
    · intro j hj; omega
    · intro j hj; omega
    · intro t ht
      have ht2 : t < 0 := ht
      omega
    · intro t ht
      obtain ⟨j, hj⟩ := hprops.usedSpec t ht
      exact (hprops.someSpec j t hj).1
    · intro j t hj
      exact (hprops.someSpec j t hj).2
    · exact pass1_card_le coords ps
  · intro i s hi hs
    exact P2Inv_step coords ps.length (pass1 coords ps) i s hi hs

/-- In-range `getD` values are members of the list. -/
theorem getD_mem {α : Type} (l : List α) (j : ℕ) (d : α) (h : j < l.length) :
    l.getD j d ∈ l := by
  rw [List.getD_eq_getElem?_getD, List.getElem?_eq_getElem h]
  exact List.getElem_mem h

/-- Reading with `getD` through `map`, in range. -/
theorem getD_map {α β : Type} (f : α → β) (l : List α) (j : ℕ) (d : α) (e : β)
    (h : j < l.length) : (l.map f).getD j e = f (l.getD j d) := by
  rw [List.getD_eq_getElem?_getD, List.getElem?_map,
    List.getElem?_eq_getElem h, List.getD_eq_getElem?_getD,
    List.getElem?_eq_getElem h]
  rfl

/-- The nonempty-target branch of `assignP` is the two-pass pipeline. -/
theorem assignP_eq (coords : List (ℚ × ℚ)) (ps : List (Particle ℚ))
    (hm : coords.length ≠ 0) :
    assignP coords ps =
      ((pass2 coords ps.length (pass1 coords ps)).qs,
        (pass2 coords ps.length (pass1 coords ps)).asg) := by
  simp [assignP, hm]

/-- Assignment preserves the particle count. -/
theorem assign_length (coords : List (ℚ × ℚ)) (ps : List (Particle ℚ)) :
    (assign_particles_to_text coords ps).length = ps.length := by
  by_cases hm : coords.length = 0
  · simp [assign_particles_to_text, assignP, hm]
  · rw [assign_particles_to_text, assignP_eq coords ps hm]
    exact (pass2_inv coords ps).qlen

/-- The ghost record has one entry per particle. -/
theorem assign_asg_length (coords : List (ℚ × ℚ)) (ps : List (Particle ℚ)) :
    (assignP coords ps).2.length = ps.length := by
  by_cases hm : coords.length = 0
  · simp [assignP, hm]
  · rw [assignP_eq coords ps hm]
    exact (pass2_inv coords ps).alen

/-- After a nonempty assignment, a particle is forming exactly when its
index is below `min particleCount targetCount`. -/
theorem assign_forming_iff (coords : List (ℚ × ℚ)) (ps : List (Particle ℚ))
    (hm : coords.length ≠ 0) (j : ℕ) (hj : j < ps.length) :
    ((assign_particles_to_text coords ps).getD j pdefault).is_forming = true ↔
      j < min ps.length coords.length := by
  have I2 := pass2_inv coords ps
  have C1h := pass1_char coords ps
  have hq : (assign_particles_to_text coords ps).getD j pdefault =
      (pass2 coords ps.length (pass1 coords ps)).qs.getD j pdefault := by
    rw [assign_particles_to_text, assignP_eq coords ps hm]
  rw [hq]
  constructor
  · intro hf
    by_contra hk
    push_neg at hk
    have := (I2.doneKeep j hj (Or.inr hk)).1
    rw [this] at hf
    have hc := C1h.charS j
    rw [if_pos hj, pass1Write_of_le hk] at hc
    rw [hc] at hf
    cases hf
  · intro hk
    by_cases hf : ((pass1 coords ps).qs.getD j pdefault).is_forming = true
    · rw [(I2.doneKeep j hj (Or.inl hf)).1]
      exact hf
    · have hf2 : ((pass1 coords ps).qs.getD j pdefault).is_forming = false := by
        rcases Bool.eq_false_or_eq_true ((pass1 coords ps).qs.getD j pdefault).is_forming
          with hh | hh
        · exact absurd hh hf
        · exact hh
      obtain ⟨t, _, _, _, hwrite⟩ := I2.doneAsg j hj hf2 hk
      rw [hwrite]
      rfl

/-- After a nonempty assignment, every eligible particle is forming. -/
theorem assign_forming_of_lt (coords : List (ℚ × ℚ)) (ps : List (Particle ℚ))
    (hm : coords.length ≠ 0) (j : ℕ) (hj : j < min ps.length coords.length) :
    ((assign_particles_to_text coords ps).getD j pdefault).is_forming = true :=
  (assign_forming_iff coords ps hm j (lt_of_lt_of_le hj (Nat.min_le_left _ _))).2 hj

theorem baseOf_writeTarget (c : ℚ × ℚ) (p : Particle ℚ) :
    baseOf (writeTarget c p) = baseOf p := rfl

theorem baseOf_markNotForming (p : Particle ℚ) :
    baseOf (markNotForming p) = baseOf p := rfl

theorem baseOf_pass1Write (coords : List (ℚ × ℚ)) (k : ℕ) (a : Option ℕ)
    (j : ℕ) (p : Particle ℚ) : baseOf (pass1Write coords k a j p) = baseOf p := by
  unfold pass1Write
  split
  · rfl
  · rcases a with _ | t <;> rfl

/-- Assignment only writes `target_x`, `target_y` and `is_forming`: every
other per-particle field is left untouched. -/
theorem assign_baseOf (coords : List (ℚ × ℚ)) (ps : List (Particle ℚ)) (j : ℕ) :
    baseOf ((assign_particles_to_text coords ps).getD j pdefault) =
      baseOf (ps.getD j pdefault) := by
  by_cases hj : j < ps.length
  · by_cases hm : coords.length = 0
    · have hmap : assign_particles_to_text coords ps = ps.map markNotForming := by
        simp [assign_particles_to_text, assignP, hm]
      rw [hmap, getD_map markNotForming ps j pdefault pdefault hj,
        baseOf_markNotForming]
    · have I2 := pass2_inv coords ps
      have C1h := pass1_char coords ps
      have hq : (assign_particles_to_text coords ps).getD j pdefault =
          (pass2 coords ps.length (pass1 coords ps)).qs.getD j pdefault := by
        rw [assign_particles_to_text, assignP_eq coords ps hm]
      have hS1 : baseOf ((pass1 coords ps).qs.getD j pdefault) =
          baseOf (ps.getD j pdefault) := by
        have hc := C1h.charS j
        rw [if_pos hj] at hc
        rw [hc, baseOf_pass1Write]
      rw [hq]
      by_cases hf : ((pass1 coords ps).qs.getD j pdefault).is_forming = true
      · rw [(I2.doneKeep j hj (Or.inl hf)).1]; exact hS1
      · have hf2 : ((pass1 coords ps).qs.getD j pdefault).is_forming = false :=
          (Bool.not_eq_true _).mp hf
        by_cases hk : j < min ps.length coords.length
        · obtain ⟨t, _, _, _, hwrite⟩ := I2.doneAsg j hj hf2 hk
          rw [hwrite, baseOf_writeTarget]; exact hS1
        · push_neg at hk
          rw [(I2.doneKeep j hj (Or.inr hk)).1]; exact hS1
  · push_neg at hj
    rw [List.getD_eq_default _ _ (by rw [assign_length]; exact hj),
      List.getD_eq_default _ _ hj]

/-- Pass-1 decisions (hence the whole ghost record of a nonempty
assignment) depend only on particle positions; consequently the assignment
engine, run on position-identical particle lists, produces the same ghost
record and used set. -/
theorem pass1_ghost_eq (coords : List (ℚ × ℚ)) (ps qs : List (Particle ℚ))
    (hlen : qs.length = ps.length)
    (hx : ∀ j, (qs.getD j pdefault).x = (ps.getD j pdefault).x)
    (hy : ∀ j, (qs.getD j pdefault).y = (ps.getD j pdefault).y) :
    (pass1 coords qs).used = (pass1 coords ps).used ∧
      (pass1 coords qs).asg = (pass1 coords ps).asg := by
  have h := pass1_par coords ps qs hlen hx hy
  exact ⟨h.used_eq, h.asg_eq⟩

/-- The decoder `chunksToPairs` keeps exactly `⌊len / 2⌋` pairs. -/
theorem chunksToPairs_length : ∀ l : List ℚ, (chunksToPairs l).length = l.length / 2
  | [] => by
      show ([] : List (ℚ × ℚ)).length = 0 / 2
      simp
  | [_] => by
      show ([] : List (ℚ × ℚ)).length = 1 / 2
      simp
  | x :: y :: rest => by
      have ih := chunksToPairs_length rest
      show (chunksToPairs rest).length + 1 = (rest.length + 1 + 1) / 2
      rw [ih]
      omega

/-- The pairs stored by `chunksToPairs` are the input values in order. -/
theorem chunksToPairs_getD : ∀ (l : List ℚ) (i : ℕ), i < l.length / 2 →
    (chunksToPairs l).getD i (0, 0) = (l.getD (2 * i) 0, l.getD (2 * i + 1) 0)
  | [], i, h => by
      have h0 : i < 0 / 2 := h
      omega
  | [_], i, h => by
      have h0 : i < 1 / 2 := h
      omega
  | x :: y :: rest, 0, _ => by
      show ((x, y) :: chunksToPairs rest).getD 0 (0, 0) = (x, y)
      rw [List.getD_cons_zero]
  | x :: y :: rest, i + 1, h => by
      have hrest : i < rest.length / 2 := by
        have hlen2 : (x :: y :: rest).length = rest.length + 2 := by simp
        rw [hlen2] at h
        omega
      have ih := chunksToPairs_getD rest i hrest
      have e1 : 2 * (i + 1) = 2 * i + 1 + 1 := by ring
      show ((x, y) :: chunksToPairs rest).getD (i + 1) (0, 0) = _
      rw [List.getD_cons_succ, ih, e1]
      rw [List.getD_cons_succ, List.getD_cons_succ, List.getD_cons_succ,
        List.getD_cons_succ]

/-- C1 (amended): for every non-empty target coordinate set whose size is
at least the particle count, and provided no particle is already forming
when assignment begins, after `assign_particles_to_text` completes every
particle has `is_forming = true`, every particle is assigned a target
index whose coordinates it stores, and the particle-to-target-index map is
injective. -/
theorem C1_amended (coords : List (ℚ × ℚ)) (ps : List (Particle ℚ))
    (hne : coords ≠ []) (hcount : ps.length ≤ coords.length)
    (hinit : ∀ p ∈ ps, p.is_forming = false) :
    (∀ j, j < ps.length →
      ((assign_particles_to_text coords ps).getD j pdefault).is_forming = true) ∧
    (∀ j, j < ps.length → ∃ t, t < coords.length ∧
      (assignP coords ps).2.getD j none = some t ∧
      ((assign_particles_to_text coords ps).getD j pdefault).target_x =
        (coords.getD t (0, 0)).1 ∧
      ((assign_particles_to_text coords ps).getD j pdefault).target_y =
        (coords.getD t (0, 0)).2) ∧
    (∀ j1 j2 t, (assignP coords ps).2.getD j1 none = some t →
      (assignP coords ps).2.getD j2 none = some t → j1 = j2) := by
  have hm : coords.length ≠ 0 := fun h => hne (List.length_eq_zero.mp h)
  have hk : min ps.length coords.length = ps.length := Nat.min_eq_left hcount
  have I2 := pass2_inv coords ps
  have hch := pass1_char coords ps
  have props := pass1_props coords ps
  have hasg2 : (assignP coords ps).2 =
      (pass2 coords ps.length (pass1 coords ps)).asg := by
    rw [assignP_eq coords ps hm]
  have hqs : assign_particles_to_text coords ps =
      (pass2 coords ps.length (pass1 coords ps)).qs := by
    rw [assign_particles_to_text, assignP_eq coords ps hm]
  refine ⟨?_, ?_, ?_⟩
  · intro j hj
    have hjk : j < min ps.length coords.length := by rw [hk]; exact hj
    exact assign_forming_of_lt coords ps hm j hjk
  · intro j hj
    have hjk : j < min ps.length coords.length := by rw [hk]; exact hj
    have hnk : ¬ min ps.length coords.length ≤ j := Nat.not_le.mpr hjk
    by_cases hf : ((pass1 coords ps).qs.getD j pdefault).is_forming = true
    · have hc := hch.charS j
      rw [if_pos hj] at hc
      cases hasg : (pass1 coords ps).asg.getD j none with
      | none =>
          rw [hasg, pass1Write_none hnk] at hc
          rw [hc] at hf
          have hini := hinit (ps.getD j pdefault) (getD_mem ps j pdefault hj)
          rw [hini] at hf
          cases hf
      | some t =>
          have htm := (props.someSpec j t hasg).1
          have hkeep := I2.doneKeep j hj (Or.inl hf)
          refine ⟨t, htm, ?_, ?_, ?_⟩
          · rw [hasg2, hkeep.2, hasg]
          · rw [hqs, hkeep.1, hc, hasg, pass1Write_some hnk]
            rfl
          · rw [hqs, hkeep.1, hc, hasg, pass1Write_some hnk]
            rfl
    · have hf2 : ((pass1 coords ps).qs.getD j pdefault).is_forming = false :=
        (Bool.not_eq_true _).mp hf
      obtain ⟨t, htm, _, hasgj, hwrite⟩ := I2.doneAsg j hj hf2 hjk
      refine ⟨t, htm, ?_, ?_, ?_⟩
      · rw [hasg2]; exact hasgj
      · rw [hqs, hwrite]
        rfl
      · rw [hqs, hwrite]
        rfl
  · intro j1 j2 t h1 h2
    rw [hasg2] at h1 h2
    exact I2.inj j1 j2 t h1 h2

/-- C2: for every non-empty target set strictly smaller than the particle
count, exactly `targetCount` particles end forming and the remaining
`particleCount - targetCount` end not forming. -/
theorem C2_counts (coords : List (ℚ × ℚ)) (ps : List (Particle ℚ))
    (hne : coords ≠ []) (hcount : coords.length < ps.length) :
    (assign_particles_to_text coords ps).countP (fun p => p.is_forming) =
      coords.length ∧
    (assign_particles_to_text coords ps).countP (fun p => ! p.is_forming) =
      ps.length - coords.length := by
  have hm : coords.length ≠ 0 := fun h => hne (List.length_eq_zero.mp h)
  have hk : min ps.length coords.length = coords.length :=
    Nat.min_eq_right (Nat.le_of_lt hcount)
  have hlen := assign_length coords ps
  have hfirst : (assign_particles_to_text coords ps).countP
      (fun p => p.is_forming) = coords.length := by
    refine countP_eq_of_iff_lt _ pdefault _ coords.length ?_ ?_
    · rw [hlen]; exact Nat.le_of_lt hcount
    · intro j hj
      rw [hlen] at hj
      have := assign_forming_iff coords ps hm j hj
      rw [hk] at this
      exact this
  refine ⟨hfirst, ?_⟩
  rw [countP_not_eq, hfirst, hlen]

/-- C4: assigning an empty target coordinate set clears `is_forming` on
every particle regardless of prior state and mutates nothing else: target,
position, velocity and all behavioral parameters are unchanged. -/
theorem C4_empty_clears (ps : List (Particle ℚ)) :
    (assign_particles_to_text [] ps).length = ps.length ∧
    ∀ j, j < ps.length →
      ((assign_particles_to_text [] ps).getD j pdefault).is_forming = false ∧
      ((assign_particles_to_text [] ps).getD j pdefault).target_x =
        (ps.getD j pdefault).target_x ∧
      ((assign_particles_to_text [] ps).getD j pdefault).target_y =
        (ps.getD j pdefault).target_y ∧
      ((assign_particles_to_text [] ps).getD j pdefault).x = (ps.getD j pdefault).x ∧
      ((assign_particles_to_text [] ps).getD j pdefault).y = (ps.getD j pdefault).y ∧
      ((assign_particles_to_text [] ps).getD j pdefault).vx =
        (ps.getD j pdefault).vx ∧
      ((assign_particles_to_text [] ps).getD j pdefault).vy =
        (ps.getD j pdefault).vy ∧
      ((assign_particles_to_text [] ps).getD j pdefault).size =
        (ps.getD j pdefault).size ∧
      ((assign_particles_to_text [] ps).getD j pdefault).friction =
        (ps.getD j pdefault).friction ∧
      ((assign_particles_to_text [] ps).getD j pdefault).ease =
        (ps.getD j pdefault).ease ∧
      ((assign_particles_to_text [] ps).getD j pdefault).max_speed =
        (ps.getD j pdefault).max_speed ∧
      ((assign_particles_to_text [] ps).getD j pdefault).attraction_strength =
        (ps.getD j pdefault).attraction_strength ∧
      ((assign_particles_to_text [] ps).getD j pdefault).particle_type =
        (ps.getD j pdefault).particle_type := by
  have hmap : assign_particles_to_text [] ps = ps.map markNotForming := by
    simp [assign_particles_to_text, assignP]
  constructor
  · exact assign_length [] ps
  · intro j hj
    rw [hmap, getD_map markNotForming ps j pdefault pdefault hj]
    exact ⟨rfl, rfl, rfl, rfl, rfl, rfl, rfl, rfl, rfl, rfl, rfl, rfl, rfl⟩

/-- C9: `set_text_coords` stores exactly `⌊len / 2⌋` coordinate pairs taken
in order from the input; an odd trailing value is dropped; the operation is
a total function (no error path). -/
theorem C9_set_text_coords_pairs (s : SwarmSubstrate ℚ) (l : List ℚ) :
    (set_text_coords s l).text_coords = chunksToPairs l ∧
    (set_text_coords s l).text_coords.length = l.length / 2 ∧
    ∀ i, i < l.length / 2 →
      (set_text_coords s l).text_coords.getD i (0, 0) =
        (l.getD (2 * i) 0, l.getD (2 * i + 1) 0) := by
  refine ⟨rfl, ?_, ?_⟩
  · show (chunksToPairs l).length = _
    exact chunksToPairs_length l
  · intro i hi
    show (chunksToPairs l).getD i (0, 0) = _
    exact chunksToPairs_getD l i hi

/-- Witness for C9 at a concrete odd-length input: `[1, 2, 3]` stores the
single pair `(1, 2)` and drops the trailing `3`. -/
theorem C9_witness :
    (0 : ℕ) < [(1 : ℚ), 2, 3].length / 2 ∧
    (set_text_coords wSub [(1 : ℚ), 2, 3]).text_coords.getD 0 (0, 0) = (1, 2) := by
  constructor
  · norm_num
  · have h := (C9_set_text_coords_pairs wSub [(1 : ℚ), 2, 3]).2.2 0 (by norm_num)
    simpa using h

/-- C10: a `set_text_coords` call can change only `target_x`, `target_y`
and `is_forming` of each particle; position, velocity, size, friction,
ease, max speed, attraction strength and particle type are unchanged, and
the particle count is preserved. -/
theorem C10_frame (s : SwarmSubstrate ℚ) (coords : List ℚ) (j : ℕ) :
    (set_text_coords s coords).particles.length = s.particles.length ∧
    ((set_text_coords s coords).particles.getD j pdefault).x =
      (s.particles.getD j pdefault).x ∧
    ((set_text_coords s coords).particles.getD j pdefault).y =
      (s.particles.getD j pdefault).y ∧
    ((set_text_coords s coords).particles.getD j pdefault).vx =
      (s.particles.getD j pdefault).vx ∧
    ((set_text_coords s coords).particles.getD j pdefault).vy =
      (s.particles.getD j pdefault).vy ∧
    ((set_text_coords s coords).particles.getD j pdefault).size =
      (s.particles.getD j pdefault).size ∧
    ((set_text_coords s coords).particles.getD j pdefault).friction =
      (s.particles.getD j pdefault).friction ∧
    ((set_text_coords s coords).particles.getD j pdefault).ease =
      (s.particles.getD j pdefault).ease ∧
    ((set_text_coords s coords).particles.getD j pdefault).max_speed =
      (s.particles.getD j pdefault).max_speed ∧
    ((set_text_coords s coords).particles.getD j pdefault).attraction_strength =
      (s.particles.getD j pdefault).attraction_strength ∧
    ((set_text_coords s coords).particles.getD j pdefault).particle_type =
      (s.particles.getD j pdefault).particle_type := by
  have hp : (set_text_coords s coords).particles =
      assign_particles_to_text (chunksToPairs coords) s.particles := rfl
  rw [hp]
  have hb := assign_baseOf (chunksToPairs coords) s.particles j
  simp only [baseOf, Prod.mk.injEq] at hb
  obtain ⟨h1, h2, h3, h4, h5, h6, h7, h8, h9, h10⟩ := hb
  exact ⟨assign_length (chunksToPairs coords) s.particles,
    h1, h2, h3, h4, h5, h6, h7, h8, h9, h10⟩

/-- Witness for C4 at a concrete input: the empty target set clears the
forming flag of the only particle. -/
theorem C4_witness :
    (0 : ℕ) < [wParticle].length ∧
    ((assign_particles_to_text [] [wParticle]).getD 0 pdefault).is_forming = false := by
  constructor
  · decide
  · exact ((C4_empty_clears [wParticle]).2 0 (by decide)).1

/-- Witness for C1 at a concrete input: one never-forming particle, one
target, everything assigned injectively. -/
theorem C1_witness :
    (([((0 : ℚ), (0 : ℚ))] : List (ℚ × ℚ)) ≠ []) ∧
    [wParticle].length ≤ [((0 : ℚ), (0 : ℚ))].length ∧
    (∀ p ∈ [wParticle], p.is_forming = false) ∧
    (∀ j, j < [wParticle].length →
      ((assign_particles_to_text [((0 : ℚ), (0 : ℚ))] [wParticle]).getD j
        pdefault).is_forming = true) := by
  refine ⟨by decide, by decide, by decide, ?_⟩
  exact (C1_amended [((0 : ℚ), (0 : ℚ))] [wParticle] (by decide) (by decide)
    (by decide)).1

/-- Witness for C2 at a concrete input: two particles, one target — exactly
one particle ends forming and one ends floating. -/
theorem C2_witness :
    (([((0 : ℚ), (0 : ℚ))] : List (ℚ × ℚ)) ≠ []) ∧
    [((0 : ℚ), (0 : ℚ))].length < [wParticle, wParticle].length ∧
    (assign_particles_to_text [((0 : ℚ), (0 : ℚ))] [wParticle, wParticle]).countP
      (fun p => p.is_forming) = [((0 : ℚ), (0 : ℚ))].length ∧
    (assign_particles_to_text [((0 : ℚ), (0 : ℚ))] [wParticle, wParticle]).countP
      (fun p => ! p.is_forming) =
      [wParticle, wParticle].length - [((0 : ℚ), (0 : ℚ))].length := by
  refine ⟨by decide, by decide, ?_⟩
  exact C2_counts [((0 : ℚ), (0 : ℚ))] [wParticle, wParticle] (by decide) (by decide)

/-- Counterexample to C1 as stated: with a single previously-forming
particle at the origin whose 5×5 cell neighborhood contains no target, and
a single target at (200, 0), assignment (targetCount = particleCount = 1)
leaves the particle forming toward its stale target (7, 7) — which is not
a member of the target set — and assigns it no target index at all, so the
claimed "each particle holds a target index" fails. -/
theorem C1_counterexample :
    (([((200 : ℚ), 0)] : List (ℚ × ℚ)) ≠ []) ∧
    [staleParticle].length ≤ [((200 : ℚ), 0)].length ∧
    ¬ (∀ j, j < [staleParticle].length → ∃ t,
      (assignP [((200 : ℚ), 0)] [staleParticle]).2.getD j none = some t) ∧
    ((assign_particles_to_text [((200 : ℚ), 0)] [staleParticle]).getD 0
      pdefault).is_forming = true ∧
    ((assign_particles_to_text [((200 : ℚ), 0)] [staleParticle]).getD 0
      pdefault).target_x = 7 ∧
    ((assign_particles_to_text [((200 : ℚ), 0)] [staleParticle]).getD 0
      pdefault).target_y = 7 := by
  have hasg : (assignP [((200 : ℚ), 0)] [staleParticle]).2 = [none] := by
    norm_num [assignP, pass1, pass2, pass1Step, pass2Step, pass1Choice, scanBest,
      gridLookup, searchOffsets, cellKey, truncQ, skipUsed, skipUsedAux,
      List.range_succ, staleParticle]
  have hqs : (assign_particles_to_text [((200 : ℚ), 0)] [staleParticle]) =
      [staleParticle] := by
    norm_num [assign_particles_to_text, assignP, pass1, pass2, pass1Step,
      pass2Step, pass1Choice, scanBest, gridLookup, searchOffsets, cellKey,
      truncQ, skipUsed, skipUsedAux, List.range_succ, staleParticle]
  refine ⟨by decide, by decide, ?_, ?_, ?_, ?_⟩
  · intro hall
    obtain ⟨t, ht⟩ := hall 0 (by decide)
    rw [hasg] at ht
    rw [List.getD_cons_zero] at ht
    cases ht
  · rw [hqs]; rfl
  · rw [hqs]; rfl
  · rw [hqs]; rfl

/-- C5 (amended): target coordinates (and particle positions) are bucketed
by `cellKey`, which truncates `x / 50` toward zero — Rust's `as i32` cast;
for nonnegative coordinates this coincides with the spec's floor rule, but
for negative coordinates it does not. -/
theorem C5_amended (x y : ℚ) (hx : 0 ≤ x) (hy : 0 ≤ y) :
    cellKey x y = cellKeySpec x y := by
  unfold cellKey cellKeySpec truncQ
  rw [if_pos (by positivity), if_pos (by positivity)]

/-- Witness for C5 (amended) at a concrete nonnegative input. -/
theorem C5_witness :
    ((0 : ℚ) ≤ 60) ∧ ((0 : ℚ) ≤ 10) ∧ cellKey 60 10 = cellKeySpec 60 10 :=
  ⟨by norm_num, by norm_num, C5_amended 60 10 (by norm_num) (by norm_num)⟩

/-- Counterexample to C5 as stated: the coordinate (-10, -10) is bucketed
by the code into cell (0, 0) (truncation toward zero), not the floor
cell (-1, -1) the spec prescribes for negative coordinates. -/
theorem C5_counterexample :
    cellKey (-10) (-10) ≠ cellKeySpec (-10) (-10) ∧
    cellKey (-10) (-10) = (0, 0) ∧
    cellKeySpec (-10) (-10) = (-1, -1) := by
  have h1 : cellKey (-10) (-10) = (0, 0) := by norm_num [cellKey, truncQ]
  have h2 : cellKeySpec (-10) (-10) = (-1, -1) := by norm_num [cellKeySpec]
  refine ⟨?_, h1, h2⟩
  rw [h1, h2]
  decide

/-- C3: after `update_render_buffer` on a substrate whose buffer has the
length the constructor establishes (`4 × particleCount`, never altered
afterwards), the buffer still has length exactly `4 × particleCount` and
the four floats at offset `i * 4` are particle `i`'s
`(x, y, size, formingFlag)` with the flag 1 when forming and 0 when not. -/
theorem C3_render_buffer (s : SwarmSubstrate ℚ)
    (h : s.render_buffer.length = 4 * s.particles.length) :
    (update_render_buffer s).render_buffer.length = 4 * particle_count s ∧
    ∀ i, i < particle_count s →
      ((update_render_buffer s).render_buffer.getD (i * 4) 0 =
        (s.particles.getD i pdefault).x ∧
       (update_render_buffer s).render_buffer.getD (i * 4 + 1) 0 =
        (s.particles.getD i pdefault).y ∧
       (update_render_buffer s).render_buffer.getD (i * 4 + 2) 0 =
        (s.particles.getD i pdefault).size ∧
       (update_render_buffer s).render_buffer.getD (i * 4 + 3) 0 =
        (if (s.particles.getD i pdefault).is_forming = true then (1 : ℚ) else 0)) := by
  have hinv := foldl_range_inv (renderStep s.particles)
    (fun i buf => buf.length = 4 * s.particles.length ∧
      ∀ j, j < i →
        (buf.getD (j * 4) 0 = (s.particles.getD j pdefault).x ∧
         buf.getD (j * 4 + 1) 0 = (s.particles.getD j pdefault).y ∧
         buf.getD (j * 4 + 2) 0 = (s.particles.getD j pdefault).size ∧
         buf.getD (j * 4 + 3) 0 =
           (if (s.particles.getD j pdefault).is_forming = true then (1 : ℚ) else 0)))
    s.render_buffer s.particles.length
    ⟨h, fun j hj => absurd hj (Nat.not_lt_zero j)⟩
    ?_
  · have hrb : (update_render_buffer s).render_buffer =
        (List.range s.particles.length).foldl (renderStep s.particles)
          s.render_buffer := rfl
    have hpc : particle_count s = s.particles.length := rfl
    rw [hrb, hpc]
    exact ⟨hinv.1, fun i hi => hinv.2 i hi⟩
  · rintro i buf hi ⟨hlen, hprev⟩
    have hidx : i * 4 + 3 < buf.length := by rw [hlen]; omega
    unfold renderStep
    rw [if_pos hidx]
    have hb0 : i * 4 < buf.length := by omega
    have hb1 : i * 4 + 1 < (buf.set (i * 4) (s.particles.getD i pdefault).x).length := by
      rw [List.length_set]; omega
    have hb2 : i * 4 + 2 < ((buf.set (i * 4) (s.particles.getD i pdefault).x).set
        (i * 4 + 1) (s.particles.getD i pdefault).y).length := by
      rw [List.length_set, List.length_set]; omega
    have hb3 : i * 4 + 3 < (((buf.set (i * 4) (s.particles.getD i pdefault).x).set
        (i * 4 + 1) (s.particles.getD i pdefault).y).set
        (i * 4 + 2) (s.particles.getD i pdefault).size).length := by
      rw [List.length_set, List.length_set, List.length_set]; omega
    refine ⟨by simp [List.length_set, hlen], ?_⟩
    intro j hj
    by_cases hij : j = i
    · subst hij
      refine ⟨?_, ?_, ?_, ?_⟩
      · rw [getD_set_ne _ _ _ _ _ (by omega), getD_set_ne _ _ _ _ _ (by omega),
          getD_set_ne _ _ _ _ _ (by omega), getD_set_self _ _ _ _ hb0]
      · rw [getD_set_ne _ _ _ _ _ (by omega), getD_set_ne _ _ _ _ _ (by omega),
          getD_set_self _ _ _ _ hb1]
      · rw [getD_set_ne _ _ _ _ _ (by omega), getD_set_self _ _ _ _ hb2]
      · rw [getD_set_self _ _ _ _ hb3]
    · have hj2 : j < i := by omega
      have hlt : j * 4 + 3 < i * 4 := by omega
      obtain ⟨p1, p2, p3, p4⟩ := hprev j hj2
      refine ⟨?_, ?_, ?_, ?_⟩
      · rw [getD_set_ne _ _ _ _ _ (by omega), getD_set_ne _ _ _ _ _ (by omega),
          getD_set_ne _ _ _ _ _ (by omega), getD_set_ne _ _ _ _ _ (by omega)]
        exact p1
      · rw [getD_set_ne _ _ _ _ _ (by omega), getD_set_ne _ _ _ _ _ (by omega),
          getD_set_ne _ _ _ _ _ (by omega), getD_set_ne _ _ _ _ _ (by omega)]
        exact p2
      · rw [getD_set_ne _ _ _ _ _ (by omega), getD_set_ne _ _ _ _ _ (by omega),
          getD_set_ne _ _ _ _ _ (by omega), getD_set_ne _ _ _ _ _ (by omega)]
        exact p3
      · rw [getD_set_ne _ _ _ _ _ (by omega), getD_set_ne _ _ _ _ _ (by omega),
          getD_set_ne _ _ _ _ _ (by omega), getD_set_ne _ _ _ _ _ (by omega)]
        exact p4

/-- Witness for C3 at a concrete substrate with one particle and a
4-element buffer. -/
theorem C3_witness :
    wSub.render_buffer.length = 4 * wSub.particles.length ∧
    (update_render_buffer wSub).render_buffer.length = 4 * particle_count wSub :=
  ⟨by decide, (C3_render_buffer wSub (by decide)).1⟩

/-- Clearing the forming flag of a non-forming particle does nothing. -/
theorem markNotForming_eq_self {p : Particle ℚ} (h : p.is_forming = false) :
    markNotForming p = p := by
  unfold markNotForming
  cases p
  simp_all

/-- Re-writing the same target is idempotent. -/
theorem writeTarget_idem (c : ℚ × ℚ) (p : Particle ℚ) :
    writeTarget c (writeTarget c p) = writeTarget c p := rfl

/-- In-range `getD` agrees with `getElem`. -/
theorem getD_eq_getElem {α : Type} (l : List α) (i : ℕ) (d : α)
    (h : i < l.length) : l.getD i d = l[i] := by
  rw [List.getD_eq_getElem?_getD, List.getElem?_eq_getElem h]
  rfl

/-- Re-running the assignment on its own output (same target set, no
particle movement) changes nothing: pass 1 re-makes exactly the same
decisions (they depend only on positions, which assignment never moves),
and pass 2 then finds every eligible particle already forming. -/
theorem assign_idem (coords : List (ℚ × ℚ)) (ps : List (Particle ℚ)) :
    assign_particles_to_text coords (assign_particles_to_text coords ps) =
      assign_particles_to_text coords ps := by
  by_cases hm : coords.length = 0
  · have h1 : assign_particles_to_text coords (assign_particles_to_text coords ps) =
        (assign_particles_to_text coords ps).map markNotForming := by
      show (assignP coords _).1 = _
      simp [assignP, hm]
    have h2 : assign_particles_to_text coords ps = ps.map markNotForming := by
      show (assignP coords ps).1 = _
      simp [assignP, hm]
    rw [h1, h2, List.map_map]
    have hff : markNotForming ∘ markNotForming = markNotForming := funext fun p => rfl
    rw [hff]
  · have hA_len : (assign_particles_to_text coords ps).length = ps.length :=
      assign_length coords ps
    have hx : ∀ j, ((assign_particles_to_text coords ps).getD j pdefault).x =
        (ps.getD j pdefault).x := by
      intro j
      exact congrArg Prod.fst (assign_baseOf coords ps j)
    have hy : ∀ j, ((assign_particles_to_text coords ps).getD j pdefault).y =
        (ps.getD j pdefault).y := by
      intro j
      exact congrArg (fun z => z.2.1) (assign_baseOf coords ps j)
    have P := pass1_par coords ps (assign_particles_to_text coords ps) hA_len hx hy
    have hforming : ∀ i, i < min ps.length coords.length →
        ((pass1 coords (assign_particles_to_text coords ps)).qs.getD i
          pdefault).is_forming = true := by
      intro i hik
      have hin : i < ps.length := lt_of_lt_of_le hik (Nat.min_le_left _ _)
      have hc := P.charT i
      rw [if_pos hin] at hc
      rw [hc, P.asg_eq]
      cases hasg : (pass1 coords ps).asg.getD i none with
      | none =>
          rw [pass1Write_none (Nat.not_le.mpr hik)]
          exact assign_forming_of_lt coords ps hm i hik
      | some t =>
          rw [pass1Write_some (Nat.not_le.mpr hik)]
          rfl
    have hcond : ∀ i, i < ps.length →
        (({ pass1 coords (assign_particles_to_text coords ps) with
            unusedIdx := 0 } : AState).qs.getD i pdefault).is_forming = true ∨
          min ps.length coords.length ≤ i := by
      intro i hin
      rcases Nat.lt_or_ge i (min ps.length coords.length) with hik | hik
      · left
        show ((pass1 coords (assign_particles_to_text coords ps)).qs.getD i
          pdefault).is_forming = true
        exact hforming i hik
      · exact Or.inr hik
    have hfix : (List.range ps.length).foldl
        (pass2Step coords (min ps.length coords.length))
        { pass1 coords (assign_particles_to_text coords ps) with unusedIdx := 0 } =
        { pass1 coords (assign_particles_to_text coords ps) with unusedIdx := 0 } := by
      refine foldl_range_inv _
        (fun _ st => st =
          { pass1 coords (assign_particles_to_text coords ps) with unusedIdx := 0 })
        _ ps.length rfl ?_
      intro i st hi hst
      subst hst
      unfold pass2Step
      rw [if_pos (hcond i hi)]
    have hrun2 : assign_particles_to_text coords (assign_particles_to_text coords ps) =
        (pass2 coords ps.length
          (pass1 coords (assign_particles_to_text coords ps))).qs := by
      calc assign_particles_to_text coords (assign_particles_to_text coords ps)
          = (assignP coords (assign_particles_to_text coords ps)).1 := rfl
        _ = (pass2 coords (assign_particles_to_text coords ps).length
              (pass1 coords (assign_particles_to_text coords ps))).qs := by
            rw [assignP_eq coords _ hm]
        _ = (pass2 coords ps.length
              (pass1 coords (assign_particles_to_text coords ps))).qs := by
            rw [hA_len]
    have hrun2b : (pass2 coords ps.length
        (pass1 coords (assign_particles_to_text coords ps))).qs =
        (pass1 coords (assign_particles_to_text coords ps)).qs := by
      show ((List.range ps.length).foldl
        (pass2Step coords (min ps.length coords.length))
        { pass1 coords (assign_particles_to_text coords ps) with
          unusedIdx := 0 }).qs = _
      rw [hfix]
    have hpoint : ∀ j, j < ps.length →
        (pass1 coords (assign_particles_to_text coords ps)).qs.getD j pdefault =
          (assign_particles_to_text coords ps).getD j pdefault := by
      intro j hj
      have hc := P.charT j
      rw [if_pos hj, P.asg_eq] at hc
      rcases Nat.lt_or_ge j (min ps.length coords.length) with hjk | hjk
      · cases hasg : (pass1 coords ps).asg.getD j none with
        | none => rw [hc, hasg, pass1Write_none (Nat.not_le.mpr hjk)]
        | some t =>
            rw [hc, hasg, pass1Write_some (Nat.not_le.mpr hjk)]
            have hS1 := (pass1_char coords ps).charS j
            rw [if_pos hj, hasg, pass1Write_some (Nat.not_le.mpr hjk)] at hS1
            have hf : ((pass1 coords ps).qs.getD j pdefault).is_forming = true := by
              rw [hS1]
              rfl
            have hkeep := (pass2_inv coords ps).doneKeep j hj (Or.inl hf)
            have hAj : (assign_particles_to_text coords ps).getD j pdefault =
                writeTarget (coords.getD t (0, 0)) (ps.getD j pdefault) := by
              calc (assign_particles_to_text coords ps).getD j pdefault
                  = (assignP coords ps).1.getD j pdefault := rfl
                _ = (pass2 coords ps.length (pass1 coords ps)).qs.getD j pdefault := by
                    rw [assignP_eq coords ps hm]
                _ = writeTarget (coords.getD t (0, 0)) (ps.getD j pdefault) := by
                    rw [hkeep.1, hS1]
            rw [hAj, writeTarget_idem]
      · rw [hc, pass1Write_of_le hjk]
        have hnf : ((assign_particles_to_text coords ps).getD j pdefault).is_forming
            = false := by
          have hiff := assign_forming_iff coords ps hm j hj
          have hnot : ¬ ((assign_particles_to_text coords ps).getD j
              pdefault).is_forming = true :=
            fun hh => absurd (hiff.mp hh) (Nat.not_lt.mpr hjk)
          exact (Bool.not_eq_true _).mp hnot
        exact markNotForming_eq_self hnf
    rw [hrun2, hrun2b]
    refine List.ext_getElem ?_ ?_
    · rw [P.tlen]
    · intro i h1 h2
      have hi : i < ps.length := by
        rw [hA_len] at h2
        exact h2
      rw [← getD_eq_getElem _ _ pdefault h1, ← getD_eq_getElem _ _ pdefault h2]
      exact hpoint i hi

/-- C8: calling `set_text_coords` twice in succession with the identical
coordinate sequence and no particle movement in between leaves the
substrate — in particular every particle's `target_x`, `target_y` and
`is_forming` — exactly as after the first call. -/
theorem C8_idempotent (s : SwarmSubstrate ℚ) (l : List ℚ) :
    set_text_coords (set_text_coords s l) l = set_text_coords s l := by
  have h := assign_idem (chunksToPairs l) s.particles
  simp [set_text_coords, h]

/-- Triggered clamp: exact magnitude `maxSpeed`, direction preserved. -/
theorem clampVelocity_exact (ms vx vy : ℝ) (hms : 0 ≤ ms)
    (hlt : ms < Real.sqrt (vx * vx + vy * vy)) :
    Real.sqrt ((clampVelocity ms vx vy).1 * (clampVelocity ms vx vy).1 +
      (clampVelocity ms vx vy).2 * (clampVelocity ms vx vy).2) = ms ∧
    clampVelocity ms vx vy =
      (ms / Real.sqrt (vx * vx + vy * vy) * vx,
       ms / Real.sqrt (vx * vx + vy * vy) * vy) := by
  have hs0 : 0 < Real.sqrt (vx * vx + vy * vy) := lt_of_le_of_lt hms hlt
  have hss : Real.sqrt (vx * vx + vy * vy) * Real.sqrt (vx * vx + vy * vy) =
      vx * vx + vy * vy :=
    Real.mul_self_sqrt (add_nonneg (mul_self_nonneg vx) (mul_self_nonneg vy))
  have harg_pos : 0 < vx * vx + vy * vy := by rw [← hss]; exact mul_pos hs0 hs0
  have hclamp : clampVelocity ms vx vy =
      (vx / Real.sqrt (vx * vx + vy * vy) * ms,
       vy / Real.sqrt (vx * vx + vy * vy) * ms) := by
    unfold clampVelocity
    rw [if_pos hlt]
  constructor
  · rw [hclamp]
    dsimp only
    have key : vx / Real.sqrt (vx * vx + vy * vy) * ms *
        (vx / Real.sqrt (vx * vx + vy * vy) * ms) +
        vy / Real.sqrt (vx * vx + vy * vy) * ms *
        (vy / Real.sqrt (vx * vx + vy * vy) * ms) = ms * ms := by
      have e1 : vx / Real.sqrt (vx * vx + vy * vy) * ms *
          (vx / Real.sqrt (vx * vx + vy * vy) * ms) +
          vy / Real.sqrt (vx * vx + vy * vy) * ms *
          (vy / Real.sqrt (vx * vx + vy * vy) * ms) =
          ((vx * vx + vy * vy) /
            (Real.sqrt (vx * vx + vy * vy) * Real.sqrt (vx * vx + vy * vy))) *
            (ms * ms) := by ring
      rw [e1, hss, div_self (ne_of_gt harg_pos), one_mul]
    rw [key, Real.sqrt_mul_self hms]
  · rw [hclamp, Prod.mk.injEq]
    exact ⟨by ring, by ring⟩

/-- The clamped velocity never exceeds `maxSpeed` in magnitude. -/
theorem clampVelocity_norm_le (ms vx vy : ℝ) (hms : 0 ≤ ms) :
    Real.sqrt ((clampVelocity ms vx vy).1 * (clampVelocity ms vx vy).1 +
      (clampVelocity ms vx vy).2 * (clampVelocity ms vx vy).2) ≤ ms := by
  by_cases hlt : ms < Real.sqrt (vx * vx + vy * vy)
  · rw [(clampVelocity_exact ms vx vy hms hlt).1]
  · push_neg at hlt
    have hclamp : clampVelocity ms vx vy = (vx, vy) := by
      unfold clampVelocity
      rw [if_neg (not_lt.mpr hlt)]
    rw [hclamp]
    exact hlt

/-- The clamp never increases the magnitude. -/
theorem clampVelocity_norm_le_self (ms vx vy : ℝ) (hms : 0 ≤ ms) :
    Real.sqrt ((clampVelocity ms vx vy).1 * (clampVelocity ms vx vy).1 +
      (clampVelocity ms vx vy).2 * (clampVelocity ms vx vy).2) ≤
      Real.sqrt (vx * vx + vy * vy) := by
  by_cases hlt : ms < Real.sqrt (vx * vx + vy * vy)
  · rw [(clampVelocity_exact ms vx vy hms hlt).1]
    exact le_of_lt hlt
  · push_neg at hlt
    have hclamp : clampVelocity ms vx vy = (vx, vy) := by
      unfold clampVelocity
      rw [if_neg (not_lt.mpr hlt)]
    rw [hclamp]

/-- C6: after any single `step()`, every particle's velocity magnitude is
at most its own `max_speed` (under the data-model invariant
`max_speed ≥ 0`); moreover whenever the pre-clamp speed strictly exceeds a
positive `max_speed`, the clamp rescales the velocity to magnitude exactly
`max_speed` while preserving the direction (a positive scalar multiple of
the pre-clamp velocity). -/
theorem C6_speed_clamp (s : SwarmSubstrate ℝ)
    (hms : ∀ p ∈ s.particles, 0 ≤ p.max_speed) :
    (∀ q ∈ (step s).particles,
      Real.sqrt (q.vx * q.vx + q.vy * q.vy) ≤ q.max_speed) ∧
    (∀ ms vx vy : ℝ, 0 < ms → ms < Real.sqrt (vx * vx + vy * vy) →
      Real.sqrt ((clampVelocity ms vx vy).1 * (clampVelocity ms vx vy).1 +
        (clampVelocity ms vx vy).2 * (clampVelocity ms vx vy).2) = ms ∧
      ∃ c : ℝ, 0 < c ∧ clampVelocity ms vx vy = (c * vx, c * vy)) := by
  constructor
  · intro q hq
    rcases List.mem_map.mp hq with ⟨p, hp, rfl⟩
    have hp0 := hms p hp
    exact clampVelocity_norm_le p.max_speed
      ((velAfterForces s.width s.height s.mouse_x s.mouse_y s.mouse_active
        (s.time + 0.02) p).1 * p.friction)
      ((velAfterForces s.width s.height s.mouse_x s.mouse_y s.mouse_active
        (s.time + 0.02) p).2 * p.friction) hp0
  · intro ms vx vy hms0 hlt
    obtain ⟨hnorm, heq⟩ := clampVelocity_exact ms vx vy (le_of_lt hms0) hlt
    have hs0 : 0 < Real.sqrt (vx * vx + vy * vy) := lt_trans hms0 hlt
    exact ⟨hnorm, ms / Real.sqrt (vx * vx + vy * vy), div_pos hms0 hs0, heq⟩

/-- Witness for C6 at a concrete one-particle substrate. -/
theorem C6_witness :
    (∀ p ∈ wSubR.particles, 0 ≤ p.max_speed) ∧
    (∀ q ∈ (step wSubR).particles,
      Real.sqrt (q.vx * q.vx + q.vy * q.vy) ≤ q.max_speed) := by
  have hms : ∀ p ∈ wSubR.particles, 0 ≤ p.max_speed := by
    intro p hp
    simp only [wSubR, List.mem_singleton] at hp
    subst hp
    norm_num [wParticleR]
  exact ⟨hms, (C6_speed_clamp wSubR hms).1⟩

/-- C7: for a particle that is not forming, with the pointer inactive and
position inside `[0, width] × [0, height]` (so no boundary bounce
triggers), a single step does not increase the velocity magnitude, given
`friction ∈ (0, 1]` and `max_speed ≥ 0` from the data model. -/
theorem C7_friction_monotone (w h mx my t : ℝ) (p : Particle ℝ)
    (hform : p.is_forming = false)
    (hx0 : 0 ≤ p.x) (hxw : p.x ≤ w) (hy0 : 0 ≤ p.y) (hyh : p.y ≤ h)
    (hf0 : 0 < p.friction) (hf1 : p.friction ≤ 1) (hms : 0 ≤ p.max_speed) :
    Real.sqrt ((stepParticle w h mx my false t p).vx *
        (stepParticle w h mx my false t p).vx +
      (stepParticle w h mx my false t p).vy *
        (stepParticle w h mx my false t p).vy) ≤
      Real.sqrt (p.vx * p.vx + p.vy * p.vy) := by
  have hforce : mouseForce mx my false p = (0, 0) := by
    unfold mouseForce
    rw [if_neg (by simp)]
  have hcx : ¬ (p.x < 0 ∨ w < p.x) := by
    rw [not_or]
    exact ⟨not_lt.mpr hx0, not_lt.mpr hxw⟩
  have hcy : ¬ (p.y < 0 ∨ h < p.y) := by
    rw [not_or]
    exact ⟨not_lt.mpr hy0, not_lt.mpr hyh⟩
  have hvel : velAfterForces w h mx my false t p = (p.vx, p.vy) := by
    unfold velAfterForces
    rw [if_neg (by rw [hform]; simp), hforce, if_neg hcx, if_neg hcy]
    dsimp only
    norm_num
  have hstepx : (stepParticle w h mx my false t p).vx =
      (clampVelocity p.max_speed (p.vx * p.friction) (p.vy * p.friction)).1 := by
    show (clampVelocity p.max_speed
      ((velAfterForces w h mx my false t p).1 * p.friction)
      ((velAfterForces w h mx my false t p).2 * p.friction)).1 = _
    rw [hvel]
  have hstepy : (stepParticle w h mx my false t p).vy =
      (clampVelocity p.max_speed (p.vx * p.friction) (p.vy * p.friction)).2 := by
    show (clampVelocity p.max_speed
      ((velAfterForces w h mx my false t p).1 * p.friction)
      ((velAfterForces w h mx my false t p).2 * p.friction)).2 = _
    rw [hvel]
  rw [hstepx, hstepy]
  have h1 := clampVelocity_norm_le_self p.max_speed (p.vx * p.friction)
    (p.vy * p.friction) hms
  have h2 : Real.sqrt (p.vx * p.friction * (p.vx * p.friction) +
      p.vy * p.friction * (p.vy * p.friction)) ≤
      Real.sqrt (p.vx * p.vx + p.vy * p.vy) := by
    have e1 : p.vx * p.friction * (p.vx * p.friction) +
        p.vy * p.friction * (p.vy * p.friction) =
        (p.friction * p.friction) * (p.vx * p.vx + p.vy * p.vy) := by ring
    rw [e1, Real.sqrt_mul (mul_self_nonneg p.friction),
      Real.sqrt_mul_self (le_of_lt hf0)]
    calc p.friction * Real.sqrt (p.vx * p.vx + p.vy * p.vy) ≤
        1 * Real.sqrt (p.vx * p.vx + p.vy * p.vy) :=
          mul_le_mul_of_nonneg_right hf1 (Real.sqrt_nonneg _)
      _ = Real.sqrt (p.vx * p.vx + p.vy * p.vy) := one_mul _
  exact le_trans h1 h2

/-- Witness for C7 at a concrete floating in-bounds particle. -/
theorem C7_witness :
    wParticleR.is_forming = false ∧ (0 : ℝ) ≤ wParticleR.x ∧
    wParticleR.x ≤ 100 ∧ (0 : ℝ) ≤ wParticleR.y ∧ wParticleR.y ≤ 100 ∧
    0 < wParticleR.friction ∧ wParticleR.friction ≤ 1 ∧
    0 ≤ wParticleR.max_speed ∧
    Real.sqrt ((stepParticle 100 100 0 0 false 0 wParticleR).vx *
        (stepParticle 100 100 0 0 false 0 wParticleR).vx +
      (stepParticle 100 100 0 0 false 0 wParticleR).vy *
        (stepParticle 100 100 0 0 false 0 wParticleR).vy) ≤
      Real.sqrt (wParticleR.vx * wParticleR.vx + wParticleR.vy * wParticleR.vy) := by
  refine ⟨rfl, by norm_num [wParticleR], by norm_num [wParticleR],
    by norm_num [wParticleR], by norm_num [wParticleR], by norm_num [wParticleR],
    by norm_num [wParticleR], by norm_num [wParticleR], ?_⟩
  exact C7_friction_monotone 100 100 0 0 0 wParticleR rfl
    (by norm_num [wParticleR]) (by norm_num [wParticleR]) (by norm_num [wParticleR])
    (by norm_num [wParticleR]) (by norm_num [wParticleR]) (by norm_num [wParticleR])
    (by norm_num [wParticleR])
